import Mathlib

/-!
# Zeppelin: verification of the WAL / manifest / query data path

This file is a shallow embedding, in Lean 4, of the core data path of the
Zeppelin vector search engine (an object-store-native vector database
written in Rust).  Rust functions become Lean functions; the object store
and stateful operations become explicit state passing; fallible code
returns `Except` or `Option`.

Modelling conventions, used throughout:

* `f32` / `f64` vector components and scores are modelled by `Int`.  No
  claim settled here depends on floating-point arithmetic; the distance
  computation (`src/index/distance.rs`, absent from the provided sources)
  enters the embedding as an explicit function parameter `dist`.
* Rust's stable `sort_by(|a, b| a.partial_cmp(b).unwrap_or(Equal))` is
  modelled by a stable insertion sort `stableSort`.  For a total
  comparator (all scores here are `Int`, so `partial_cmp` never returns
  `None`), the output of a stable sort is uniquely determined by the
  comparator, hence the model agrees with the Rust implementation
  element-for-element.
* `HashMap` values are modelled by association lists; where the Rust code
  iterates a `HashMap` (whose order is unspecified) the theorems below
  only use membership, never order.
* ULIDs are modelled by `Nat` in the manifest/visibility sections (only
  their total order matters there) and by their 26-character Crockford
  base32 text form in the serialization section.
-/

namespace Zeppelin

/-- Model of an `f32` vector component (exact values; see the header). -/
abbrev Val := Int

/-- Model of an `f32` distance/score. -/
abbrev Score := Int

/-- Rust `type VectorId = String` (src/types.rs). -/
abbrev VectorId := String

/-- Rust `enum DistanceMetric` (src/types.rs). -/
inductive DistanceMetric where
  | cosine
  | euclidean
  | dotProduct
deriving DecidableEq, Repr

/-- Rust `enum AttributeValue` (src/types.rs).  `Float` carries an `Int`:
floating-point payloads are modelled by integer-valued doubles. -/
inductive AttributeValue where
  | string (s : String)
  | integer (n : Int)
  | float (x : Int)
  | bool (b : Bool)
  | stringList (xs : List String)
deriving DecidableEq, Repr

/-- Model of `HashMap<String, AttributeValue>` as an association list. -/
abbrev Attrs := List (String × AttributeValue)

/-- Rust `struct VectorEntry` (src/types.rs). -/
structure VectorEntry where
  id : VectorId
  values : List Val
  attributes : Option Attrs
deriving DecidableEq, Repr

/-- Rust `struct SearchResult` (src/types.rs). -/
structure SearchResult where
  id : VectorId
  score : Score
  attributes : Option Attrs
deriving DecidableEq, Repr

/-- Rust `enum Filter` (src/types.rs).  The enum in the source has exactly
four variants: `Eq`, `Range`, `In`, `And` (serde tag `op`, snake_case).
`inList` is the `In` variant (`in` is a Lean keyword); `Range`'s `f64`
bounds are modelled by `Int` per the header conventions. -/
inductive Filter where
  | eq (field : String) (value : AttributeValue)
  | range (field : String) (gte lte gt lt : Option Int)
  | inList (field : String) (values : List AttributeValue)
  | and (filters : List Filter)
deriving Repr

/-- Rust `enum ConsistencyLevel` (src/types.rs). -/
inductive ConsistencyLevel where
  | strong
  | eventual
deriving DecidableEq, Repr

/-- Conjunction of the four optional numeric bounds of a range filter. -/
def rangeCheck (n : Int) (gte lte gt lt : Option Int) : Bool :=
  (match gte with | some b => decide (b ≤ n) | none => true) &&
  (match lte with | some b => decide (n ≤ b) | none => true) &&
  (match gt with | some b => decide (b < n) | none => true) &&
  (match lt with | some b => decide (n < b) | none => true)

/-- Modelled from the spec: `evaluate_filter` lives in `src/index/filter.rs`,
which is not among the provided sources.  Per spec §6: `eq` compares the
attribute to the value, `range` applies numeric bounds to integer and
float attributes only, `in` tests membership, `and` conjoins; a missing
attribute fails the predicate. -/
def evaluateFilter : Filter → Attrs → Bool
  | .eq field value, attrs =>
    match attrs.lookup field with
    | some v => decide (v = value)
    | none => false
  | .range field gte lte gt lt, attrs =>
    match attrs.lookup field with
    | some (.integer n) => rangeCheck n gte lte gt lt
    | some (.float x) => rangeCheck x gte lte gt lt
    | _ => false
  | .inList field values, attrs =>
    match attrs.lookup field with
    | some v => values.contains v
    | none => false
  | .and filters, attrs =>
    filters.attach.all fun g => evaluateFilter g.1 attrs
termination_by f _ => sizeOf f
decreasing_by
  have hm := List.sizeOf_lt_of_mem g.2
  simp only [Filter.and.sizeOf_spec]
  omega

/-! ## Stable sort (model of Rust's stable `sort_by`) -/

/-- Insert `x` into `l`, passing over elements strictly below it; an
element equal (under the comparator) to `x` is not passed, so an element
inserted earlier stays before later equal elements. -/
def stableInsert (lt : α → α → Bool) (x : α) : List α → List α
  | [] => [x]
  | y :: ys => if lt y x then y :: stableInsert lt x ys else x :: y :: ys

/-- Stable sort: the unique comparator-sorted permutation that keeps equal
elements in their original relative order.  Agrees with Rust's stable
`sort_by` for a total comparator. -/
def stableSort (lt : α → α → Bool) : List α → List α
  | [] => []
  | x :: xs => stableInsert lt x (stableSort lt xs)

/-- Comparator used by every `sort_by` on scores in the source. -/
def scoreLt (a b : SearchResult) : Bool := a.score < b.score

/-! ## Error taxonomy (src/error.rs) -/

/-- Rust `enum ZeppelinError` (src/error.rs).  Variants that carry only
foreign error payloads (`object_store::Error`, `serde_json::Error`, …)
are modelled without payload. -/
inductive ZeppelinError where
  | notFound (key : String)
  | storage
  | storagePath
  | json
  | bincode (msg : String)
  | checksumMismatch (expected actual : Nat)
  | manifestNotFound (ns : String)
  | namespaceNotFound (ns : String)
  | namespaceAlreadyExists (ns : String)
  | indexNotBuilt (ns : String)
  | index (msg : String)
  | kMeansConvergence (iterations : Nat)
  | dimensionMismatch (expected actual : Nat)
  | validation (msg : String)
  | config (msg : String)
  | query (msg : String)
  | io
  | compaction (msg : String)
  | cache (msg : String)
  | internal (msg : String)
deriving DecidableEq, Repr

deriving instance DecidableEq for Except

/-- Rust `ZeppelinError::status_code` (src/error.rs lines 86-102). -/
def ZeppelinError.status_code : ZeppelinError → Nat
  | .notFound _ | .namespaceNotFound _ | .manifestNotFound _ => 404
  | .namespaceAlreadyExists _ => 409
  | .dimensionMismatch _ _ | .validation _ => 400
  | .indexNotBuilt _ => 503
  | _ => 500

/-! ## WAL fragments and the manifest (src/wal/fragment.rs, src/wal/manifest.rs)

In this section a ULID is modelled by a `Nat`: only its total order and
its appearance in object-store keys matter here.  The byte-level fragment
codec and its checksum are modelled separately in the `Codec` namespace
below; the `checksum` field is therefore omitted from this view of
`WalFragment`. -/

/-- Model of a ULID at the visibility level (total order only). -/
abbrev Ulid := Nat

/-- Rust `struct WalFragment` (src/wal/fragment.rs), visibility-level view
(the `checksum` field is treated in the `Codec` namespace). -/
structure WalFragment where
  id : Ulid
  vectors : List VectorEntry
  deletes : List VectorId
deriving DecidableEq, Repr

/-- Rust `WalFragment::s3_key` (src/wal/fragment.rs): `{ns}/wal/{id}.wal`. -/
def WalFragment.s3_key (ns : String) (id : Ulid) : String :=
  ns ++ "/wal/" ++ toString id ++ ".wal"

/-- Rust `WalFragment::operation_count` (src/wal/fragment.rs). -/
def WalFragment.operation_count (f : WalFragment) : Nat :=
  f.vectors.length + f.deletes.length

/-- Rust `struct FragmentRef` (src/wal/manifest.rs). -/
structure FragmentRef where
  id : Ulid
  vector_count : Nat
  delete_count : Nat
deriving DecidableEq, Repr

/-- Rust `struct SegmentRef` (src/wal/manifest.rs). -/
structure SegmentRef where
  id : String
  vector_count : Nat
  cluster_count : Nat
deriving DecidableEq, Repr

/-- Rust `struct Manifest` (src/wal/manifest.rs).  `updated_at` timestamps
are modelled by `Nat`; `Utc::now()` becomes an explicit `now` argument. -/
structure Manifest where
  fragments : List FragmentRef
  segments : List SegmentRef
  compaction_watermark : Option Ulid
  active_segment : Option String
  updated_at : Nat
deriving DecidableEq, Repr

/-- Rust `Manifest::new` (src/wal/manifest.rs). -/
def Manifest.new (now : Nat) : Manifest :=
  { fragments := [], segments := [], compaction_watermark := none,
    active_segment := none, updated_at := now }

/-- Rust `Manifest::s3_key` (src/wal/manifest.rs): `{ns}/manifest.json`. -/
def Manifest.s3_key (ns : String) : String := ns ++ "/manifest.json"

/-- Rust `Manifest::add_fragment` (src/wal/manifest.rs lines 61-65). -/
def Manifest.add_fragment (m : Manifest) (fref : FragmentRef) (now : Nat) : Manifest :=
  { m with fragments := m.fragments ++ [fref], updated_at := now }

/-- Rust `Manifest::remove_compacted_fragments` (src/wal/manifest.rs lines 67-72). -/
def Manifest.remove_compacted_fragments (m : Manifest) (watermark : Ulid) (now : Nat) : Manifest :=
  { m with fragments := m.fragments.filter (fun f => watermark < f.id),
           compaction_watermark := some watermark, updated_at := now }

/-- Rust `Manifest::add_segment` (src/wal/manifest.rs lines 74-79). -/
def Manifest.add_segment (m : Manifest) (sref : SegmentRef) (now : Nat) : Manifest :=
  { m with active_segment := some sref.id, segments := m.segments ++ [sref],
           updated_at := now }

/-- Rust `Manifest::uncompacted_fragments` (src/wal/manifest.rs). -/
def Manifest.uncompacted_fragments (m : Manifest) : List FragmentRef := m.fragments

/-! ## Object store model -/

/-- A value held by the object store, already structurally decoded (the
byte-level codec is treated in the `Codec` namespace). -/
inductive StoreVal where
  | frag (f : WalFragment)
  | man (m : Manifest)
deriving DecidableEq, Repr

/-- The object store: an association list from keys to values; `put`
prepends, `get` finds the most recent binding. -/
abbrev Store := List (String × StoreVal)

/-- Point read (strongly consistent per key, per spec §4.1). -/
def Store.get (s : Store) (k : String) : Option StoreVal :=
  (s.find? (fun kv => kv.1 = k)).map (·.2)

/-- Point write. -/
def Store.put (s : Store) (k : String) (v : StoreVal) : Store := (k, v) :: s

/-! ## WAL writer (src/wal/writer.rs) -/

/-- Identity of an allocated `Arc<Mutex<()>>`; the allocator state is the
count of mutexes allocated so far, so each `Arc::new(Mutex::new(()))`
yields a fresh identity. -/
abbrev LockId := Nat

/-- Allocation state for lock objects. -/
structure LockAlloc where
  next : LockId
deriving DecidableEq, Repr

/-- Rust `WalWriter::namespace_lock` (src/wal/writer.rs lines 32-41).  The
function ignores the `locks` map entirely (that field is never read or
written anywhere in the source) and returns `Arc::new(Mutex::new(()))` —
a freshly allocated mutex — on every call; the namespace argument is
unused.  Allocation is modelled by the counter state. -/
def WalWriter.namespace_lock (_ns : String) (s : LockAlloc) : LockId × LockAlloc :=
  (s.next, ⟨s.next + 1⟩)

/-- Rust `WalWriter::append` (src/wal/writer.rs lines 46-85).  The fresh
ULID produced by `WalFragment::new` enters as the `id` argument; `now` is
the manifest timestamp; `fragment_put_ok` and `manifest_put_ok` are the
outcomes of the two object-store PUTs (a failed PUT is modelled as
leaving the store unchanged).  Note the source acquires no lock here. -/
def WalWriter.append (store : Store) (ns : String) (vectors : List VectorEntry)
    (deletes : List VectorId) (id : Ulid) (now : Nat)
    (fragment_put_ok manifest_put_ok : Bool) :
    Except ZeppelinError WalFragment × Store :=
  let fragment : WalFragment := ⟨id, vectors, deletes⟩
  let key := WalFragment.s3_key ns fragment.id
  if fragment_put_ok then
    let store₁ := store.put key (.frag fragment)
    -- `Manifest::read`: `NotFound` becomes the default empty manifest;
    -- a non-manifest value at the key is a JSON parse failure.
    match store₁.get (Manifest.s3_key ns) with
    | some (.frag _) => (.error .json, store₁)
    | mval =>
      let manifest := match mval with
        | some (.man m) => m
        | _ => Manifest.new now
      let manifest₁ := manifest.add_fragment
        ⟨fragment.id, fragment.vectors.length, fragment.deletes.length⟩ now
      if manifest_put_ok then
        (.ok fragment, store₁.put (Manifest.s3_key ns) (.man manifest₁))
      else
        (.error .storage, store₁)
  else
    (.error .storage, store)

/-! ## WAL reader (src/wal/reader.rs) -/

/-- Rust `WalReader::read_fragment` (src/wal/reader.rs lines 30-34):
fetch the object at the fragment key and decode it (a missing object or
a non-fragment value is an error). -/
def WalReader.read_fragment (store : Store) (ns : String) (fragment_id : Ulid) :
    Except ZeppelinError WalFragment :=
  match store.get (WalFragment.s3_key ns fragment_id) with
  | some (.frag f) => .ok f
  | some (.man _) => .error .json
  | none => .error (.notFound (WalFragment.s3_key ns fragment_id))

/-- The fragment-fetch loop of `read_uncompacted_fragments`: fetch every
referenced fragment in manifest order (any failure fails the replay). -/
def WalReader.read_fragments_loop (store : Store) (ns : String) :
    List FragmentRef → Except ZeppelinError (List WalFragment)
  | [] => .ok []
  | fref :: rest => do
    let f ← WalReader.read_fragment store ns fref.id
    let fs ← WalReader.read_fragments_loop store ns rest
    .ok (f :: fs)

/-- Rust `WalReader::read_uncompacted_fragments` (src/wal/reader.rs lines
38-61): read the manifest (absent ⇒ no fragments), fetch every referenced
fragment (any failure fails the whole replay), sort ascending by ID. -/
def WalReader.read_uncompacted_fragments (store : Store) (ns : String) :
    Except ZeppelinError (List WalFragment) :=
  match store.get (Manifest.s3_key ns) with
  | none => .ok []
  | some (.frag _) => .error .json
  | some (.man m) => do
    let fragments ← WalReader.read_fragments_loop store ns m.uncompacted_fragments
    .ok (stableSort (fun a b => a.id < b.id) fragments)

/-! ## Manifest evolution (claim C4)

Reachable manifest states under WAL appends (src/wal/writer.rs) and
compaction commits.  A WAL append pushes a `FragmentRef` whose id is the
freshly generated monotonic time-ordered ULID of `WalFragment::new`
(spec §4.3 step 2); the generator is modelled by the side conditions
that the new id exceeds every id already present.  A compaction commit
(the compactor module is not among the provided sources; spec §4.5 step
8) applies `Manifest::remove_compacted_fragments` and
`Manifest::add_segment`, with an arbitrary watermark argument. -/
inductive ManifestReach : Manifest → Prop where
  | init (now : Nat) : ManifestReach (Manifest.new now)
  | append (m : Manifest) (id : Ulid) (vc dc now : Nat)
      (hreach : ManifestReach m)
      (hfresh : ∀ f ∈ m.fragments, f.id < id)
      (hwm : ∀ w, m.compaction_watermark = some w → w < id) :
      ManifestReach (m.add_fragment ⟨id, vc, dc⟩ now)
  | compact (m : Manifest) (w : Ulid) (sref : SegmentRef) (now now' : Nat)
      (hreach : ManifestReach m) :
      ManifestReach ((m.remove_compacted_fragments w now).add_segment sref now')

/-- The manifest invariant of spec §8: fragment ids strictly ascending,
and every fragment id strictly above the watermark when one is set. -/
def Manifest.Inv (m : Manifest) : Prop :=
  m.fragments.Pairwise (fun a b => a.id < b.id) ∧
  ∀ w, m.compaction_watermark = some w → ∀ f ∈ m.fragments, w < f.id

/-! ## Vector upsert handler (src/server/handlers/vectors.rs) -/

/-- Rust `upsert_vectors` (src/server/handlers/vectors.rs lines 32-64),
after the namespace lookup produced metadata with dimension `dims`: reject
the first vector whose length differs from `dims` with
`DimensionMismatch`, otherwise perform the WAL append and answer with the
number of vectors.  There is no batch-size or emptiness check in the
source.  Returns the response (or error) together with the store. -/
def upsert_vectors (dims : Nat) (vectors : List VectorEntry) (store : Store)
    (ns : String) (id : Ulid) (now : Nat) (fragment_put_ok manifest_put_ok : Bool) :
    Except ZeppelinError Nat × Store :=
  match vectors.find? (fun v => v.values.length ≠ dims) with
  | some v => (.error (.dimensionMismatch dims v.values.length), store)
  | none =>
    let count := vectors.length
    match WalWriter.append store ns vectors [] id now fragment_put_ok manifest_put_ok with
    | (.ok _, store') => (.ok count, store')
    | (.error e, store') => (.error e, store')

/-! ## Query path (src/query.rs) -/

/-- One step of the WAL replay loop of `wal_scan` (src/query.rs lines
104-114) on the pair (deleted ids, latest vectors): each delete inserts a
tombstone and drops the id from the latest map; each upsert drops the
tombstone and inserts/overwrites.  `HashSet`/`HashMap` are modelled by
lists (insertion order; the theorems use membership only). -/
def walReplayFragment (st : List VectorId × List (VectorId × (List Val × Option Attrs)))
    (fragment : WalFragment) : List VectorId × List (VectorId × (List Val × Option Attrs)) :=
  let afterDeletes := fragment.deletes.foldl
    (fun (st : List VectorId × List (VectorId × (List Val × Option Attrs))) del_id =>
      (if st.1.contains del_id then st.1 else st.1 ++ [del_id],
       st.2.filter (fun kv => kv.1 ≠ del_id)))
    st
  fragment.vectors.foldl
    (fun (st : List VectorId × List (VectorId × (List Val × Option Attrs))) vec =>
      (st.1.filter (fun d => d ≠ vec.id),
       st.2.filter (fun kv => kv.1 ≠ vec.id) ++ [(vec.id, (vec.values, vec.attributes))]))
    afterDeletes

/-- Rust `wal_scan` (src/query.rs lines 83-149), its pure core: given the
fragments already read (in ULID order), replay them, apply the filter
(vectors without attributes fail any filter), score the survivors with
`dist` (the model of `compute_distance`), and sort by score.  Returns the
results and the scanned-fragment count. -/
def wal_scan (fragments : List WalFragment) (query : List Val)
    (filter : Option Filter) (dist : List Val → List Val → Score) :
    List SearchResult × Nat :=
  if fragments.isEmpty then ([], 0)
  else
    let st := fragments.foldl walReplayFragment ([], [])
    let latest := st.2
    let surviving := latest.filter (fun kv =>
      match filter with
      | some f =>
        match kv.2.2 with
        | some a => evaluateFilter f a
        | none => false
      | none => true)
    let results := surviving.map (fun kv =>
      { id := kv.1, score := dist query kv.2.1, attributes := kv.2.2 : SearchResult })
    (stableSort scoreLt results, fragments.length)

/-- Rust `merge_results` (src/query.rs lines 185-219): under `Strong`,
drop segment results whose id appears among the WAL results, concatenate,
sort, truncate; under `Eventual`, truncate the segment results. -/
def merge_results (wal_results segment_results : List SearchResult)
    (top_k : Nat) (consistency : ConsistencyLevel) : List SearchResult :=
  match consistency with
  | .strong =>
    let wal_ids := wal_results.map (·.id)
    let merged := wal_results ++
      segment_results.filter (fun sr => ¬ wal_ids.contains sr.id)
    (stableSort scoreLt merged).take top_k
  | .eventual => segment_results.take top_k

/-- The data path of `execute_query` (src/query.rs lines 17-80) after the
manifest read, with the segment search results supplied (`segment_search`
runs the IVF index, whose module is not among the provided sources):
`Strong` runs the WAL scan, `Eventual` skips it; segment results come
from the active segment; the two are merged by `merge_results`. -/
def execute_query_merge (fragments : List WalFragment) (segment_results : List SearchResult)
    (query : List Val) (top_k : Nat) (filter : Option Filter)
    (consistency : ConsistencyLevel) (dist : List Val → List Val → Score) :
    List SearchResult :=
  let wal_results := match consistency with
    | .strong => (wal_scan fragments query filter dist).1
    | .eventual => []
  merge_results wal_results segment_results top_k consistency

/-! ## Query handler (src/server/handlers/query.rs) -/

/-- Rust `query_namespace` (src/server/handlers/query.rs), vector path,
after namespace lookup: validate `top_k` (positive, within `max_top_k`),
then the query dimension, then run the query.  The query path never
writes to the store; the handler returns only a response. -/
def query_namespace_vector (dims : Nat) (max_top_k : Nat) (vector : List Val)
    (top_k : Nat) (filter : Option Filter) (consistency : ConsistencyLevel)
    (fragments : List WalFragment) (segment_results : List SearchResult)
    (dist : List Val → List Val → Score) :
    Except ZeppelinError (List SearchResult) :=
  if top_k = 0 then .error (.validation "top_k must be > 0")
  else if max_top_k < top_k then .error (.validation "top_k exceeds maximum")
  else if vector.length ≠ dims then
    .error (.dimensionMismatch dims vector.length)
  else
    .ok (execute_query_merge fragments segment_results vector top_k filter consistency dist)

/-! ## Hierarchical index search (src/index/hierarchical/search.rs)

The artifact fetches (`fetch_with_cache` over the object store, composed
with the per-artifact deserializers) are modelled by an environment of
fetch functions; `Fetched.missing` is a failed fetch (object-store / cache
error), `Fetched.corrupt` a successful fetch whose bytes fail to
deserialize, `Fetched.ok` a decoded artifact.  The quantization modules
(`src/index/quantization/…`) are not among the provided sources: a loaded
SQ calibration is modelled by its asymmetric-distance function, a loaded
PQ codebook by its query-side ADC distance function (spec §4.6). -/

/-- Outcome of fetching and decoding one artifact. -/
inductive Fetched (α : Type) where
  | missing
  | corrupt
  | ok (a : α)
deriving DecidableEq

/-- A decoded `cluster_{i}.bin`: parallel arrays of vectors and ids. -/
structure Cluster where
  ids : List String
  vectors : List (List Val)
deriving DecidableEq, Repr

/-- A decoded `sq_cluster_{i}.bin`: 8-bit codes plus ids. -/
structure SqCluster where
  ids : List String
  codes : List (List Nat)
deriving DecidableEq, Repr

/-- A decoded `pq_cluster_{i}.bin`: byte codes plus ids. -/
structure PqCluster where
  ids : List String
  codes : List (List Nat)
deriving DecidableEq, Repr

/-- A tree node of the hierarchical index (`deserialize_tree_node`). -/
structure TreeNode where
  is_leaf : Bool
  centroids : List (List Val)
  children : List String
deriving DecidableEq, Repr

/-- Fetch environment for one segment: the object store, disk cache and
deserializers behind `fetch_with_cache`, plus the distance function
(`compute_distance`, src/index/distance.rs, absent from the sources) with
the namespace's metric already applied. -/
structure SegmentEnv where
  dist : List Val → List Val → Score
  node : String → Fetched TreeNode
  cluster : Nat → Fetched Cluster
  attrsData : Nat → Fetched (List (Option Attrs))
  sqCluster : Nat → Fetched SqCluster
  pqCluster : Nat → Fetched PqCluster
  /-- Modelled from the spec: the loaded `sq_calibration.bin` as its
  asymmetric-distance function (spec §4.6, SQ8). -/
  sqCal : Fetched (List Val → List Nat → Score)
  /-- Modelled from the spec: the loaded `pq_codebook.bin` as its ADC
  distance function (query, codes) (spec §4.6, PQ). -/
  pqCodebook : Fetched (List Val → List Nat → Score)

/-- Rust `struct Candidate` (src/index/hierarchical/search.rs lines 26-30). -/
structure Candidate where
  id : String
  score : Score
  attributes : Option Attrs
deriving DecidableEq, Repr

/-- Rust `QuantizationType` (src/index/quantization, absent from the
sources; the three variants are fixed by the `match` in
`scan_leaf_clusters`). -/
inductive QuantizationType where
  | none
  | scalar
  | product

/-- Rust `load_attrs` (src/index/hierarchical/search.rs lines 512-541):
any fetch or parse failure yields `None` (the two filter branches differ
only in logging). -/
def load_attrs (env : SegmentEnv) (cluster_idx : Nat) : Option (List (Option Attrs)) :=
  match env.attrsData cluster_idx with
  | .ok a => some a
  | _ => Option.none

/-- Attribute lookup for the `j`-th member of a cluster:
`attrs.as_ref().and_then(|a| a.get(j)).cloned().flatten()`. -/
def memberAttrs (attrs : Option (List (Option Attrs))) (j : Nat) : Option Attrs :=
  (attrs.bind (fun a => a.get? j)).join

/-- Candidates contributed by one decoded cluster in a flat scan. -/
def clusterCandidates (env : SegmentEnv) (query : List Val) (c : Cluster)
    (attrs : Option (List (Option Attrs))) : List Candidate :=
  c.vectors.enum.map (fun jv =>
    { id := c.ids.getD jv.1 "", score := env.dist query jv.2,
      attributes := memberAttrs attrs jv.1 })

/-- Rust `scan_clusters_flat` (src/index/hierarchical/search.rs lines
310-346): per probed cluster, a failed fetch is skipped (warn +
`continue`) while `deserialize_cluster(…)?` propagates an error; decoded
members are scored and accumulated. -/
def scan_clusters_flat (env : SegmentEnv) (cluster_indices : List Nat)
    (query : List Val) : Except ZeppelinError (List Candidate) :=
  match cluster_indices with
  | [] => .ok []
  | i :: rest =>
    match env.cluster i with
    | .missing => scan_clusters_flat env rest query
    | .corrupt => .error (.bincode "deserialize_cluster")
    | .ok c => do
      let cands := clusterCandidates env query c (load_attrs env i)
      let tail ← scan_clusters_flat env rest query
      .ok (cands ++ tail)

/-- Phase 1 of `scan_clusters_sq` (lines 370-394): coarse entries
(id, approximate score, cluster index); a failed SQ fetch falls back to
the full-precision cluster (itself skipped if its fetch fails), and any
deserialization failure propagates. -/
def sqCoarse (env : SegmentEnv) (asym : List Val → List Nat → Score)
    (cluster_indices : List Nat) (query : List Val) :
    Except ZeppelinError (List (String × Score × Nat)) :=
  match cluster_indices with
  | [] => .ok []
  | i :: rest =>
    match env.sqCluster i with
    | .ok sqc => do
      let entries := sqc.codes.enum.map (fun jc =>
        (sqc.ids.getD jc.1 "", asym query jc.2, i))
      let tail ← sqCoarse env asym rest query
      .ok (entries ++ tail)
    | .corrupt => .error (.bincode "deserialize_sq_cluster")
    | .missing =>
      match env.cluster i with
      | .ok c => do
        let entries := c.vectors.enum.map (fun jv =>
          (c.ids.getD jv.1 "", env.dist query jv.2, i))
        let tail ← sqCoarse env asym rest query
        .ok (entries ++ tail)
      | .corrupt => .error (.bincode "deserialize_cluster")
      | .missing => sqCoarse env asym rest query

/-- Phase 2 of the quantized scans (lines 400-432 and 477-506): group the
surviving coarse entries by cluster (`HashMap`, iteration modelled in
first-appearance order; the theorems use membership only), re-fetch each
group's full-precision cluster (fetch failure skips the group,
deserialization failure propagates) and rescore the needed ids. -/
def rerankGroups (env : SegmentEnv) (query : List Val)
    (coarse : List (String × Score × Nat)) (groups : List Nat) :
    Except ZeppelinError (List Candidate) :=
  match groups with
  | [] => .ok []
  | cidx :: rest =>
    match env.cluster cidx with
    | .missing => rerankGroups env query coarse rest
    | .corrupt => .error (.bincode "deserialize_cluster")
    | .ok c => do
      let needed := (coarse.filter (fun e => e.2.2 = cidx)).map (·.1)
      let attrs := load_attrs env cidx
      let cands := (c.ids.enum.filter (fun ji => needed.contains ji.2)).map
        (fun ji =>
          { id := ji.2, score := env.dist query (c.vectors.getD ji.1 []),
            attributes := memberAttrs attrs ji.1 : Candidate })
      let tail ← rerankGroups env query coarse rest
      .ok (cands ++ tail)

/-- Rust `scan_clusters_sq` (src/index/hierarchical/search.rs lines
350-432): load the calibration (failure propagates), coarse-rank with
asymmetric distances, keep the best `fetch_k × 4`, then rerank those ids
at full precision. -/
def scan_clusters_sq (env : SegmentEnv) (cluster_indices : List Nat)
    (query : List Val) (fetch_k : Nat) : Except ZeppelinError (List Candidate) :=
  match env.sqCal with
  | .missing => .error (.notFound "sq_calibration.bin")
  | .corrupt => .error (.bincode "SqCalibration::from_bytes")
  | .ok asym => do
    let coarse ← sqCoarse env asym cluster_indices query
    let coarse := (stableSort (fun a b => a.2.1 < b.2.1) coarse).take (fetch_k * 4)
    rerankGroups env query coarse (coarse.map (·.2.2)).dedup

/-- Phase 1 of `scan_clusters_pq` (lines 457-471): ADC entries; a failed
PQ fetch skips the cluster (no flat fallback), a deserialization failure
propagates. -/
def pqCoarse (env : SegmentEnv) (adc : List Val → List Nat → Score)
    (cluster_indices : List Nat) (query : List Val) :
    Except ZeppelinError (List (String × Score × Nat)) :=
  match cluster_indices with
  | [] => .ok []
  | i :: rest =>
    match env.pqCluster i with
    | .ok pqc => do
      let entries := pqc.codes.enum.map (fun jc =>
        (pqc.ids.getD jc.1 "", adc query jc.2, i))
      let tail ← pqCoarse env adc rest query
      .ok (entries ++ tail)
    | .corrupt => .error (.bincode "deserialize_pq_cluster")
    | .missing => pqCoarse env adc rest query

/-- Rust `scan_clusters_pq` (src/index/hierarchical/search.rs lines
436-509). -/
def scan_clusters_pq (env : SegmentEnv) (cluster_indices : List Nat)
    (query : List Val) (fetch_k : Nat) : Except ZeppelinError (List Candidate) :=
  match env.pqCodebook with
  | .missing => .error (.notFound "pq_codebook.bin")
  | .corrupt => .error (.bincode "PqCodebook::from_bytes")
  | .ok adc => do
    let coarse ← pqCoarse env adc cluster_indices query
    let coarse := (stableSort (fun a b => a.2.1 < b.2.1) coarse).take (fetch_k * 4)
    rerankGroups env query coarse (coarse.map (·.2.2)).dedup

/-- Modelled from the spec: `oversampled_k` lives in `src/index/filter.rs`,
absent from the sources; spec §4.7 step 3: `fetch_k = top_k ×
oversample_factor` when a filter is present. -/
def oversampled_k (top_k oversample_factor : Nat) : Nat := top_k * oversample_factor

/-- Comparator on candidate scores. -/
def candLt (a b : Candidate) : Bool := a.score < b.score

/-- Rust `scan_leaf_clusters` (src/index/hierarchical/search.rs lines
238-306): dispatch on quantization, sort the candidates, post-filter
(candidates without attributes fail any filter) and truncate to `top_k`. -/
def scan_leaf_clusters (env : SegmentEnv) (quantization : QuantizationType)
    (cluster_indices : List Nat) (query : List Val) (top_k : Nat)
    (filter : Option Filter) (oversample_factor : Nat) :
    Except ZeppelinError (List SearchResult) := do
  let fetch_k := if filter.isSome then oversampled_k top_k oversample_factor else top_k
  let candidates : List Candidate ← match quantization with
    | .scalar => scan_clusters_sq env cluster_indices query fetch_k
    | .product => scan_clusters_pq env cluster_indices query fetch_k
    | .none => scan_clusters_flat env cluster_indices query
  let sorted := stableSort candLt candidates
  let kept : List Candidate := match filter with
    | some f => (sorted.filter (fun (c : Candidate) =>
        match c.attributes with
        | some attrs => evaluateFilter f attrs
        | _ => false)).take top_k
    | _ => sorted.take top_k
  .ok (kept.map (fun (c : Candidate) =>
    { id := c.id, score := c.score, attributes := c.attributes }))

/-- One level of the descent loop (lines 132-153): fetch each current
node (a failed fetch is skipped with a warning, `deserialize_tree_node?`
propagates), emit `(child_id, distance, parent_is_leaf)` for every child,
and record whether any leaf / any internal node was seen. -/
def collect_level (env : SegmentEnv) (query : List Val) :
    List String → Except ZeppelinError (List (String × Score × Bool) × Bool × Bool)
  | [] => .ok ([], false, false)
  | nid :: rest =>
    match env.node nid with
    | .missing => collect_level env query rest
    | .corrupt => .error (.bincode "deserialize_tree_node")
    | .ok n => do
      let entries := n.children.enum.map (fun cc =>
        (cc.2, env.dist query (n.centroids.getD cc.1 []), n.is_leaf))
      let (tail, al, ai) ← collect_level env query rest
      .ok (entries ++ tail, n.is_leaf || al, !n.is_leaf || ai)

/-- Rust parse of a leaf child id, `id.parse::<usize>()`: a nonempty
all-digit string parses to its decimal value, anything else fails. -/
def parseClusterIdx (id : String) : Option Nat :=
  if id.data ≠ [] ∧ id.data.all (fun c => 48 ≤ c.toNat && c.toNat ≤ 57) then
    some (id.data.foldl (fun a c => a * 10 + (c.toNat - 48)) 0)
  else none

/-- The descent loop of `search_hierarchical` (src/index/hierarchical/
search.rs lines 127-232).  `beam` is the already-clamped effective beam
width.  The Rust `loop` has no bound; `fuel` only finitizes the model
(every theorem below supplies enough fuel). -/
def descend_loop (env : SegmentEnv) (query : List Val) (top_k beam : Nat)
    (filter : Option Filter) (oversample_factor : Nat)
    (quantization : QuantizationType) :
    Nat → List String → Except ZeppelinError (List SearchResult)
  | 0, _ => .error (.internal "model fuel exhausted")
  | fuel + 1, current_ids => do
    let (entries, any_leaf, any_internal) ← collect_level env query current_ids
    let next_beam := (stableSort (fun a b => a.2.1 < b.2.1) entries).take beam
    if any_leaf && !any_internal then
      scan_leaf_clusters env quantization
        (next_beam.filterMap (fun e => parseClusterIdx e.1)) query top_k filter
        oversample_factor
    else if any_leaf && any_internal then do
      let leaf_clusters := (next_beam.filter (fun e => e.2.2)).filterMap
        (fun e => parseClusterIdx e.1)
      let internal_ids := (next_beam.filter (fun e => !e.2.2)).map (·.1)
      let leaf_results ← scan_leaf_clusters env quantization leaf_clusters query
        top_k filter oversample_factor
      if internal_ids.isEmpty then .ok leaf_results
      else descend_loop env query top_k beam filter oversample_factor quantization fuel internal_ids
    else
      let current := next_beam.map (·.1)
      if current.isEmpty then .ok []
      else descend_loop env query top_k beam filter oversample_factor quantization fuel current

/-- Metadata of a hierarchical index segment. -/
structure HierMeta where
  dim : Nat
  root_node_id : String
  quantization : QuantizationType

/-- Rust `search_hierarchical` (src/index/hierarchical/search.rs lines
51-233): dimension check, `top_k = 0` short-circuit, root ranking, then
either a direct leaf scan (leaf root) or the descent loop. -/
def search_hierarchical (env : SegmentEnv) (meta : HierMeta) (query : List Val)
    (top_k beam_width : Nat) (filter : Option Filter) (oversample_factor : Nat)
    (fuel : Nat) : Except ZeppelinError (List SearchResult) :=
  if query.length ≠ meta.dim then
    .error (.dimensionMismatch meta.dim query.length)
  else if top_k = 0 then .ok []
  else
    let effective_beam := max beam_width 1
    match env.node meta.root_node_id with
    | .missing => .error (.notFound meta.root_node_id)
    | .corrupt => .error (.bincode "deserialize_tree_node")
    | .ok root =>
      let beam := (root.centroids.zip root.children).map (fun ccid =>
        (ccid.2, env.dist query ccid.1))
      let beam := (stableSort (fun a b => a.2 < b.2) beam).take effective_beam
      if root.is_leaf then
        scan_leaf_clusters env meta.quantization
          (beam.filterMap (fun e => parseClusterIdx e.1)) query top_k filter
          oversample_factor
      else
        descend_loop env query top_k effective_beam filter oversample_factor
          meta.quantization fuel (beam.map (·.1))

/-! ## Byte-level WAL fragment codec (src/wal/fragment.rs) and filter parsing

`serde_json` serialization is modelled down to the character level: a JSON
value tree (`Json`), a renderer producing the exact compact output of
`serde_json::to_vec`, and a recursive-descent parser modelling
`serde_json::from_slice` on that grammar (the parser is total via an
explicit fuel argument; `from_bytes` supplies fuel exceeding any input's
needs).  Restrictions of the model, stated once here: strings contain no
characters requiring JSON escaping; every `f32`/`f64` is integer-valued
and rendered with a `.0` fraction (`serde_json` round-trips shortest
decimal forms exactly, so exact integer arithmetic is faithful); numbers
in scientific notation are not parsed.  `xxh3_64` is an external crate
and is not modelled bit-for-bit: every definition and theorem is
parametric in the hash function `h`; `modelHash` is a concrete executable
stand-in used by closed instances (no statement below depends on any
property of the hash). -/
namespace Codec

/-- The double-quote character. -/
def qc : Char := Char.ofNat 34

/-- The opening-brace character. -/
def lb : Char := Char.ofNat 123

/-- The closing-brace character. -/
def rb : Char := Char.ofNat 125

/-- Decimal digit character for `d < 10`. -/
def digitChar (d : Nat) : Char := Char.ofNat (48 + d)

/-- Value of a decimal digit character. -/
def digitVal (c : Char) : Nat := c.toNat - 48

/-- ASCII decimal digit test. -/
def isDigitC (c : Char) : Bool := 48 ≤ c.toNat && c.toNat ≤ 57

mutual
/-- JSON value trees.  `num` is an integer-typed number, `fnum` a
float-typed number (integer-valued per the model restrictions above),
rendered with a `.0` fraction exactly as `serde_json` prints an
integer-valued float.  Arrays and objects use the mutually inductive
list types below so that every codec function is structurally recursive
(and hence evaluates by `rfl`/`decide`). -/
inductive Json where
  | null
  | str (s : List Char)
  | num (n : Int)
  | fnum (n : Int)
  | bool (b : Bool)
  | arr (elems : JsonList)
  | obj (fields : JsonFields)

/-- A list of JSON values (array elements). -/
inductive JsonList where
  | nil
  | cons (head : Json) (tail : JsonList)

/-- A list of key/value pairs (object fields). -/
inductive JsonFields where
  | nil
  | cons (key : List Char) (value : Json) (tail : JsonFields)
end

deriving instance DecidableEq for Json, JsonList, JsonFields

/-- Build a `JsonList` from a `List Json`. -/
def JsonList.ofList : List Json → JsonList
  | [] => .nil
  | j :: js => .cons j (JsonList.ofList js)

/-- Build `JsonFields` from a list of pairs. -/
def JsonFields.ofList : List (List Char × Json) → JsonFields
  | [] => .nil
  | (k, v) :: fs => .cons k v (JsonFields.ofList fs)

/-- Decimal digits of `n`, most significant first (`fuel ≥ 1` and
`n < 10 ^ fuel` make it exact; `renderNat` supplies that). -/
def renderNatAux : Nat → Nat → List Char
  | 0, _ => []
  | fuel + 1, n =>
    if n < 10 then [digitChar n]
    else renderNatAux fuel (n / 10) ++ [digitChar (n % 10)]

/-- Decimal rendering of a natural number. -/
def renderNat (n : Nat) : List Char := renderNatAux (n + 1) n

/-- Decimal rendering of an integer. -/
def renderInt (n : Int) : List Char :=
  if n < 0 then '-' :: renderNat n.natAbs else renderNat n.toNat

mutual
/-- Render a JSON value in `serde_json`'s compact format. -/
def render : Json → List Char
  | .null => String.toList "null"
  | .str s => qc :: s ++ [qc]
  | .num n => renderInt n
  | .fnum n => renderInt n ++ ['.', '0']
  | .bool b => if b then String.toList "true" else String.toList "false"
  | .arr .nil => ['[', ']']
  | .arr (.cons e es) => '[' :: (render e ++ renderElemsRest es ++ [']'])
  | .obj .nil => [lb, rb]
  | .obj (.cons k v fs) =>
    lb :: ((qc :: k ++ qc :: ':' :: render v) ++ renderFieldsRest fs ++ [rb])

/-- Render the `, e₂, e₃, …` continuation of a nonempty array. -/
def renderElemsRest : JsonList → List Char
  | .nil => []
  | .cons e es => ',' :: render e ++ renderElemsRest es

/-- Render the `, "k₂":v₂, …` continuation of a nonempty object. -/
def renderFieldsRest : JsonFields → List Char
  | .nil => []
  | .cons k v fs => ',' :: (qc :: k ++ qc :: ':' :: render v) ++ renderFieldsRest fs
end

/-- Parse a string body after the opening quote (escape-free model). -/
def parseStringBody (input : List Char) : Option (List Char × List Char) :=
  match input.dropWhile (fun c => c ≠ qc) with
  | _ :: rest => some (input.takeWhile (fun c => c ≠ qc), rest)
  | [] => none

/-- Numeric value of a digit run. -/
def digitsVal (ds : List Char) : Nat := ds.foldl (fun a c => a * 10 + digitVal c) 0

/-- Parse a nonempty run of decimal digits. -/
def parseNatNum (input : List Char) : Option (Nat × List Char) :=
  let ds := input.takeWhile isDigitC
  if ds.isEmpty then none else some (digitsVal ds, input.dropWhile isDigitC)

/-- Parse an unsigned number token: digits, optionally followed by a
zero-valued fraction (the only fractions in the model). -/
def parseNumMag (input : List Char) : Option (Json × List Char) :=
  (parseNatNum input).bind fun p =>
    if p.2.head? = some '.' then
      (parseNatNum p.2.tail).bind fun q =>
        if q.1 = 0 then some (.fnum (p.1 : Int), q.2) else none
    else some (.num (p.1 : Int), p.2)

/-- Negate the payload of a parsed number token. -/
def negJson : Json → Json
  | .num n => .num (-n)
  | .fnum n => .fnum (-n)
  | j => j

/-- Parse a signed number token. -/
def parseNumTok (input : List Char) : Option (Json × List Char) :=
  if input.head? = some '-' then
    (parseNumMag input.tail).map (fun p => (negJson p.1, p.2))
  else parseNumMag input

mutual
/-- Fueled recursive-descent parser for the JSON grammar above
(`serde_json::from_slice`'s grammar restricted per the namespace header;
the fuel is structural, every caller supplies enough). -/
def parseJ : Nat → List Char → Option (Json × List Char)
  | 0, _ => none
  | fuel + 1, input =>
    match input with
    | [] => none
    | c :: rest =>
      if c = qc then (parseStringBody rest).map (fun p => (.str p.1, p.2))
      else if c = lb then
        if rest.head? = some rb then some (.obj .nil, rest.tail)
        else if rest.isEmpty then none
        else (parseFields fuel rest).map (fun p => (.obj p.1, p.2))
      else if c = '[' then
        if rest.head? = some ']' then some (.arr .nil, rest.tail)
        else if rest.isEmpty then none
        else (parseElems fuel rest).map (fun p => (.arr p.1, p.2))
      else if c = 't' then
        match rest with
        | 'r' :: 'u' :: 'e' :: rest' => some (.bool true, rest')
        | _ => none
      else if c = 'f' then
        match rest with
        | 'a' :: 'l' :: 's' :: 'e' :: rest' => some (.bool false, rest')
        | _ => none
      else if c = 'n' then
        match rest with
        | 'u' :: 'l' :: 'l' :: rest' => some (.null, rest')
        | _ => none
      else if isDigitC c || c = '-' then parseNumTok (c :: rest)
      else none

/-- Parse one-or-more comma-separated array elements up to `]`. -/
def parseElems : Nat → List Char → Option (JsonList × List Char)
  | 0, _ => none
  | fuel + 1, input =>
    (parseJ fuel input).bind fun p =>
      if p.2.head? = some ']' then some (.cons p.1 .nil, p.2.tail)
      else if p.2.head? = some ',' then
        (parseElems fuel p.2.tail).map (fun q => (.cons p.1 q.1, q.2))
      else none

/-- Parse one-or-more comma-separated object fields up to the closing
brace. -/
def parseFields : Nat → List Char → Option (JsonFields × List Char)
  | 0, _ => none
  | fuel + 1, input =>
    if input.head? = some qc then
      (parseStringBody input.tail).bind fun pk =>
        if pk.2.head? = some ':' then
          (parseJ fuel pk.2.tail).bind fun pv =>
            if pv.2.head? = some rb then some (.cons pk.1 pv.1 .nil, pv.2.tail)
            else if pv.2.head? = some ',' then
              (parseFields fuel pv.2.tail).map (fun q => (.cons pk.1 pv.1 q.1, q.2))
            else none
        else none
    else none
end

/-- A continuation is numeric-safe when it cannot extend a just-parsed
number token: it does not start with a digit or a decimal point.  Every
context following a rendered value (`,`, `]`, the closing brace, or end
of input) is numeric-safe. -/
def NumSafe (l : List Char) : Prop :=
  ∀ c, l.head? = some c → isDigitC c = false ∧ c ≠ '.'

mutual
/-- Fuel sufficient for `parseJ` on a rendered value. -/
def fsize : Json → Nat
  | .null => 1
  | .str _ => 1
  | .num _ => 1
  | .fnum _ => 1
  | .bool _ => 1
  | .arr es => fsizeL es + 1
  | .obj fs => fsizeF fs + 1

/-- Fuel sufficient for `parseElems` on rendered elements. -/
def fsizeL : JsonList → Nat
  | .nil => 0
  | .cons e es => fsize e + fsizeL es + 1

/-- Fuel sufficient for `parseFields` on rendered fields. -/
def fsizeF : JsonFields → Nat
  | .nil => 0
  | .cons _ v fs => fsize v + fsizeF fs + 1
end

mutual
/-- Model well-formedness of a JSON value: strings are escape-free (see
the namespace header). -/
def wfJ : Json → Bool
  | .null => true
  | .str s => s.all (fun c => c ≠ qc)
  | .num _ => true
  | .fnum _ => true
  | .bool _ => true
  | .arr es => wfL es
  | .obj fs => wfF fs

/-- Well-formedness of array elements. -/
def wfL : JsonList → Bool
  | .nil => true
  | .cons e es => wfJ e && wfL es

/-- Well-formedness of object fields. -/
def wfF : JsonFields → Bool
  | .nil => true
  | .cons k v fs => k.all (fun c => c ≠ qc) && wfJ v && wfF fs
end

/-! ### Fragment serialization (src/wal/fragment.rs) -/

/-- The Crockford base32 alphabet used by ULID text. -/
def crockford : List Char := "0123456789ABCDEFGHJKMNPQRSTVWXYZ".toList

/-- ULID text validity as checked by the `ulid` crate's string parser:
exactly 26 Crockford characters, first character at most `7` (128-bit
overflow check). -/
def ulidValid (s : List Char) : Bool :=
  s.length = 26 && s.all (fun c => crockford.contains c) &&
    (s.headD 'Z').toNat ≤ 55

/-- Rust `struct WalFragment` (src/wal/fragment.rs), serialization-level
view: the ULID in its 26-character text form, and the `u64` checksum. -/
structure Fragment where
  id : List Char
  vectors : List VectorEntry
  deletes : List VectorId
  checksum : Nat
deriving DecidableEq, Repr

/-- Encoding of an `AttributeValue` (serde untagged). -/
def jsonOfAttributeValue : AttributeValue → Json
  | .string s => .str s.toList
  | .integer n => .num n
  | .float x => .fnum x
  | .bool b => .bool b
  | .stringList xs => .arr (JsonList.ofList (xs.map (fun s => .str s.toList)))

/-- Encoding of an attribute map (field order as stored; a `HashMap`'s
iteration order is arbitrary, and nothing below depends on it). -/
def jsonOfAttrs (a : Attrs) : Json :=
  .obj (JsonFields.ofList (a.map (fun kv => (kv.1.toList, jsonOfAttributeValue kv.2))))

/-- Encoding of a `VectorEntry`: fields in declaration order, the
`attributes` field skipped when `None` (`skip_serializing_if`). -/
def jsonOfVectorEntry (v : VectorEntry) : Json :=
  .obj (JsonFields.ofList
    ([(String.toList "id", .str v.id.toList),
      (String.toList "values", .arr (JsonList.ofList (v.values.map Json.fnum)))] ++
     (match v.attributes with
      | some a => [(String.toList "attributes", jsonOfAttrs a)]
      | none => [])))

/-- Encoding of a `WalFragment` (derived `Serialize`, declaration order). -/
def fragmentToJson (F : Fragment) : Json :=
  .obj (JsonFields.ofList
    [(String.toList "id", .str F.id),
     (String.toList "vectors",
      .arr (JsonList.ofList (F.vectors.map jsonOfVectorEntry))),
     (String.toList "deletes",
      .arr (JsonList.ofList (F.deletes.map (fun s => .str s.toList)))),
     (String.toList "checksum", .num (F.checksum : Int))])

/-- Rust `WalFragment::to_bytes` (src/wal/fragment.rs lines 80-83):
`serde_json::to_vec(self)`. -/
def to_bytes (F : Fragment) : List Char := render (fragmentToJson F)

/-- First binding of a key in a decoded object (the renderer never emits
duplicate keys, so first-wins agrees with serde on every input below). -/
def objLookup : JsonFields → List Char → Option Json
  | .nil, _ => none
  | .cons k v fs, key => if k = key then some v else objLookup fs key

/-- Option-valued traversal of a parsed array. -/
def JsonList.mapMOpt (f : Json → Option α) : JsonList → Option (List α)
  | .nil => some []
  | .cons e es => do
    let a ← f e
    let as ← JsonList.mapMOpt f es
    some (a :: as)

/-- Decode a JSON string. -/
def decodeString : Json → Option String
  | .str s => some (String.mk s)
  | _ => none

/-- Decode an `f32`/`f64` (either number form; exact-integer model). -/
def decodeNumber : Json → Option Val
  | .num n => some n
  | .fnum n => some n
  | _ => none

/-- Decode a `u64` (nonnegative, below `2^64`). -/
def decodeU64 : Json → Option Nat
  | .num n => if 0 ≤ n ∧ n < (2 : Int) ^ 64 then some n.toNat else none
  | _ => none

/-- Decode an `AttributeValue` (serde untagged: `String`, `Integer`,
`Float`, `Bool`, `StringList`, tried in declaration order). -/
def decodeAttributeValue : Json → Option AttributeValue
  | .str s => some (.string (String.mk s))
  | .num n => some (.integer n)
  | .fnum n => some (.float n)
  | .bool b => some (.bool b)
  | .arr es => (JsonList.mapMOpt decodeString es).map .stringList
  | _ => none

/-- Decode the fields of an attribute map. -/
def decodeAttrFields : JsonFields → Option Attrs
  | .nil => some []
  | .cons k v fs => do
    let a ← decodeAttributeValue v
    let rest ← decodeAttrFields fs
    some ((String.mk k, a) :: rest)

/-- Decode an attribute map. -/
def decodeAttrs : Json → Option Attrs
  | .obj fs => decodeAttrFields fs
  | _ => none

/-- Decode a `VectorEntry` (derived `Deserialize`; a missing `attributes`
field defaults to `None`). -/
def decodeVectorEntry : Json → Option VectorEntry
  | .obj fs => do
    let idj ← objLookup fs (String.toList "id")
    let id ← decodeString idj
    let valuesj ← objLookup fs (String.toList "values")
    let values ← match valuesj with
      | .arr es => JsonList.mapMOpt decodeNumber es
      | _ => Option.none
    let attributes ← match objLookup fs (String.toList "attributes") with
      | some a => (decodeAttrs a).map some
      | none => some Option.none
    some { id := id, values := values, attributes := attributes }
  | _ => none

/-- Decode a `WalFragment` (derived `Deserialize`; the `id` string must be
valid ULID text for the `ulid` crate's parser). -/
def fragmentFromJson : Json → Option Fragment
  | .obj fs =>
    (objLookup fs (String.toList "id")).bind fun idj =>
    (match idj with
      | .str s => if ulidValid s then some s else Option.none
      | _ => Option.none).bind fun id =>
    (objLookup fs (String.toList "vectors")).bind fun vj =>
    (match vj with
      | .arr es => JsonList.mapMOpt decodeVectorEntry es
      | _ => Option.none).bind fun vectors =>
    (objLookup fs (String.toList "deletes")).bind fun dj =>
    (match dj with
      | .arr es => JsonList.mapMOpt decodeString es
      | _ => Option.none).bind fun deletes =>
    (objLookup fs (String.toList "checksum")).bind fun cj =>
    (decodeU64 cj).bind fun checksum =>
    some { id := id, vectors := vectors, deletes := deletes, checksum := checksum }
  | _ => none

/-- Byte-wise lexicographic order on keys (Rust `String` `Ord`), used by
the `BTreeMap` canonicalization. -/
def charListLt : List Char → List Char → Bool
  | [], [] => false
  | [], _ :: _ => true
  | _ :: _, [] => false
  | a :: as, b :: bs =>
    if a.toNat < b.toNat then true
    else if b.toNat < a.toNat then false
    else charListLt as bs

/-- Canonical (key-sorted, `BTreeMap`) encoding of an attribute map. -/
def canonicalAttrs (a : Attrs) : Json :=
  .obj (JsonFields.ofList (stableSort (fun x y => charListLt x.1 y.1)
    (a.map (fun kv => (kv.1.toList, jsonOfAttributeValue kv.2)))))

/-- Canonical tuple `(id, values, attributes)` of one vector entry
(`Option<BTreeMap>` serializes as `null` or an object). -/
def canonicalEntry (v : VectorEntry) : Json :=
  .arr (JsonList.ofList
    [.str v.id.toList, .arr (JsonList.ofList (v.values.map Json.fnum)),
     match v.attributes with
     | some a => canonicalAttrs a
     | none => .null])

/-- The canonical checksum payload of `WalFragment::compute_checksum`
(src/wal/fragment.rs lines 44-65): `serde_json::to_vec(&(&canonical,
deletes))`. -/
def checksumPayload (vectors : List VectorEntry) (deletes : List VectorId) : List Char :=
  render (.arr (JsonList.ofList
    [.arr (JsonList.ofList (vectors.map canonicalEntry)),
     .arr (JsonList.ofList (deletes.map (fun s => .str s.toList)))]))

/-- Rust `WalFragment::compute_checksum`: a 64-bit hash (`xxh3_64`,
supplied as the parameter `h`, reduced to 64 bits) of the canonical
payload. -/
def compute_checksum (h : List Char → Nat) (vectors : List VectorEntry)
    (deletes : List VectorId) : Nat :=
  h (checksumPayload vectors deletes) % 2 ^ 64

/-- Rust `WalFragment::validate_checksum` (src/wal/fragment.rs lines
67-77). -/
def validate_checksum (h : List Char → Nat) (F : Fragment) :
    Except ZeppelinError Unit :=
  let expected := compute_checksum h F.vectors F.deletes
  if F.checksum ≠ expected then
    .error (.checksumMismatch expected F.checksum)
  else .ok ()

/-- Rust `WalFragment::from_bytes` (src/wal/fragment.rs lines 86-90):
parse (`serde_json::from_slice`, which rejects trailing input), then
validate the checksum. -/
def from_bytes (h : List Char → Nat) (data : List Char) :
    Except ZeppelinError Fragment :=
  match (parseJ (data.length + 1) data).bind
      (fun p => if p.2 = [] then fragmentFromJson p.1 else none) with
  | some F =>
    match validate_checksum h F with
    | .ok _ => .ok F
    | .error e => .error e
  | none => .error .json

/-- Concrete executable stand-in for `xxh3_64` (see the namespace header:
no statement depends on any property of the hash). -/
def modelHash (payload : List Char) : Nat :=
  payload.foldl (fun a c => (a * 31 + c.toNat) % 2 ^ 64) 5381

/-- Overwrite the byte at `pos` (single-byte mutation of a serialized
fragment). -/
def mutateByte (pos : Nat) (c : Char) (data : List Char) : List Char :=
  data.set pos c

/-- Concrete fragment used in the checksum examples: a valid ULID id, no
vectors, no deletes, and the checksum the writer would compute. -/
def exampleFragment : Fragment :=
  { id := "01ARZ3NDEKTSV4RRFFQ69G5FAV".toList, vectors := [], deletes := [],
    checksum := compute_checksum modelHash [] [] }

/-! ### Filter parsing (src/types.rs, serde internally tagged by `op`) -/

/-- Decode an optional numeric bound of a `Range` filter (a missing
`Option` field deserializes to `None`). -/
def decodeOptNum (fields : JsonFields) (key : List Char) :
    Option (Option Int) :=
  match objLookup fields key with
  | some j => (decodeNumber j).map some
  | none => some none

mutual
/-- Decode a `Filter` (serde internally tagged, tag `op`, snake_case:
the enum's variants are exactly `eq`, `range`, `in`, `and`).  The fuel
only finitizes nested `and` recursion; `filterFromJson` supplies enough
for any value. -/
def filterFromJsonF : Nat → Json → Option Filter
  | 0, _ => none
  | fuel + 1, j =>
    match j with
    | .obj fs =>
      match objLookup fs (String.toList "op") with
      | some (.str op) =>
        if op = String.toList "eq" then do
          let fj ← objLookup fs (String.toList "field")
          let field ← decodeString fj
          let vj ← objLookup fs (String.toList "value")
          let value ← decodeAttributeValue vj
          some (.eq field value)
        else if op = String.toList "range" then do
          let fj ← objLookup fs (String.toList "field")
          let field ← decodeString fj
          let gte ← decodeOptNum fs (String.toList "gte")
          let lte ← decodeOptNum fs (String.toList "lte")
          let gt ← decodeOptNum fs (String.toList "gt")
          let lt ← decodeOptNum fs (String.toList "lt")
          some (.range field gte lte gt lt)
        else if op = String.toList "in" then do
          let fj ← objLookup fs (String.toList "field")
          let field ← decodeString fj
          let vj ← objLookup fs (String.toList "values")
          let values ← match vj with
            | .arr es => JsonList.mapMOpt decodeAttributeValue es
            | _ => Option.none
          some (.inList field values)
        else if op = String.toList "and" then do
          let fj ← objLookup fs (String.toList "filters")
          match fj with
          | .arr es => (filterListF fuel es).map .and
          | _ => Option.none
        else none
      | _ => none
    | _ => none

/-- Decode a parsed array of filters. -/
def filterListF : Nat → JsonList → Option (List Filter)
  | 0, _ => none
  | fuel + 1, es =>
    match es with
    | .nil => some []
    | .cons e es' => do
      let f ← filterFromJsonF fuel e
      let fs ← filterListF fuel es'
      some (f :: fs)
end

/-- Filter parsing as performed on a query request body (`fsize j` bounds
the nesting, so the fuel never runs out for parsable values). -/
def filterFromJson (j : Json) : Option Filter := filterFromJsonF (fsize j) j

end Codec

/-- Inserting with `stableInsert` permutes the element onto the list. -/
theorem stableInsert_perm (lt : α → α → Bool) (x : α) (l : List α) :
    (stableInsert lt x l).Perm (x :: l) := by
  induction l with
  | nil => exact List.Perm.refl _
  | cons y ys ih =>
    by_cases h : lt y x = true
    · simp only [stableInsert, h, if_true]
      exact (ih.cons y).trans (List.Perm.swap x y ys)
    · simp only [stableInsert, h, if_false]
      exact List.Perm.refl _

/-- `stableSort` permutes its input. -/
theorem stableSort_perm (lt : α → α → Bool) (l : List α) :
    (stableSort lt l).Perm l := by
  induction l with
  | nil => exact List.Perm.refl _
  | cons x xs ih => exact (stableInsert_perm lt x (stableSort lt xs)).trans (ih.cons x)

/-- Membership is preserved by `stableSort`. -/
theorem mem_stableSort {lt : α → α → Bool} {l : List α} {a : α} :
    a ∈ stableSort lt l ↔ a ∈ l :=
  (stableSort_perm lt l).mem_iff

/-- The manifest object key and any fragment object key are distinct
(they differ right after the namespace prefix: `/m…` vs `/w…`). -/
theorem manifest_key_ne_frag_key (ns : String) (id : Ulid) :
    Manifest.s3_key ns ≠ WalFragment.s3_key ns id := by
  intro h
  have hd := congrArg String.data h
  simp only [Manifest.s3_key, WalFragment.s3_key, String.data_append,
    List.append_assoc] at hd
  have hd' := List.append_cancel_left hd
  simp at hd'

/-- `read_fragment` succeeds exactly by finding a fragment value at the
fragment key. -/
theorem read_fragment_ok {store : Store} {ns : String} {fid : Ulid} {f : WalFragment}
    (h : WalReader.read_fragment store ns fid = .ok f) :
    Store.get store (WalFragment.s3_key ns fid) = some (.frag f) := by
  unfold WalReader.read_fragment at h
  cases hg : Store.get store (WalFragment.s3_key ns fid) with
  | none => rw [hg] at h; cases h
  | some v =>
    cases v with
    | man m => rw [hg] at h; cases h
    | frag g => rw [hg] at h; cases h; rfl

/-- The reader's fetch loop is unchanged when every referenced fragment
key reads the same in both stores. -/
theorem read_fragments_loop_congr (store store' : Store) (ns : String)
    (refs : List FragmentRef)
    (h : ∀ fref ∈ refs, Store.get store' (WalFragment.s3_key ns fref.id) =
      Store.get store (WalFragment.s3_key ns fref.id)) :
    WalReader.read_fragments_loop store' ns refs =
      WalReader.read_fragments_loop store ns refs := by
  induction refs with
  | nil => rfl
  | cons fref rest ih =>
    simp only [WalReader.read_fragments_loop, WalReader.read_fragment,
      h fref (List.mem_cons_self fref rest)]
    rw [ih (fun g hg => h g (List.mem_cons_of_mem fref hg))]

/-- Every fragment produced by the fetch loop was read from the key of
some manifest reference. -/
theorem read_fragments_loop_sources (store : Store) (ns : String)
    (refs : List FragmentRef) (l : List WalFragment)
    (h : WalReader.read_fragments_loop store ns refs = .ok l) :
    ∀ g ∈ l, ∃ fref ∈ refs,
      Store.get store (WalFragment.s3_key ns fref.id) = some (.frag g) := by
  induction refs generalizing l with
  | nil =>
    simp only [WalReader.read_fragments_loop] at h
    cases h
    intro g hg
    exact absurd hg (List.not_mem_nil g)
  | cons fref rest ih =>
    simp only [WalReader.read_fragments_loop] at h
    cases hf : WalReader.read_fragment store ns fref.id with
    | error e => rw [hf] at h; cases h
    | ok f =>
      rw [hf] at h
      cases hrest : WalReader.read_fragments_loop store ns rest with
      | error e => rw [hrest] at h; cases h
      | ok fs =>
        rw [hrest] at h
        cases h
        intro g hg
        rcases List.mem_cons.mp hg with rfl | hg'
        · exact ⟨fref, List.mem_cons_self fref rest, read_fragment_ok hf⟩
        · obtain ⟨fr, hfr, hget⟩ := ih fs hrest g hg'
          exact ⟨fr, List.mem_cons_of_mem fref hfr, hget⟩

/-- Conversely, when the fetch loop succeeds, every manifest reference
contributed the fragment read from its key. -/
theorem read_fragments_loop_complete (store : Store) (ns : String)
    (refs : List FragmentRef) (l : List WalFragment)
    (h : WalReader.read_fragments_loop store ns refs = .ok l) :
    ∀ fref ∈ refs, ∃ g ∈ l,
      Store.get store (WalFragment.s3_key ns fref.id) = some (.frag g) := by
  induction refs generalizing l with
  | nil =>
    intro fref hf
    exact absurd hf (List.not_mem_nil fref)
  | cons fref rest ih =>
    simp only [WalReader.read_fragments_loop] at h
    cases hf : WalReader.read_fragment store ns fref.id with
    | error e => rw [hf] at h; cases h
    | ok f =>
      rw [hf] at h
      cases hrest : WalReader.read_fragments_loop store ns rest with
      | error e => rw [hrest] at h; cases h
      | ok fs =>
        rw [hrest] at h
        cases h
        intro fr hfr
        rcases List.mem_cons.mp hfr with rfl | hfr'
        · exact ⟨f, List.mem_cons_self f fs, read_fragment_ok hf⟩
        · obtain ⟨g, hg, hget⟩ := ih fs hrest fr hfr'
          exact ⟨g, List.mem_cons_of_mem f hg, hget⟩

/-- A string survives the `toList`/`mk` round trip. -/
theorem string_mk_toList (s : String) : String.mk s.toList = s := rfl

/-- C6 counterexample: the claim says `{op: or, filters[]}` and
`{op: not, filter}` parse successfully.  The `Filter` enum in
src/types.rs has no `Or` or `Not` variant, so serde's internally-tagged
parse rejects both. -/
theorem C6_counterexample_or_not_rejected :
    (Codec.filterFromJson (.obj (.cons (String.toList "op")
        (.str (String.toList "or"))
        (.cons (String.toList "filters") (.arr .nil) .nil)))).isNone = true ∧
    (Codec.filterFromJson (.obj (.cons (String.toList "op")
        (.str (String.toList "not"))
        (.cons (String.toList "filter") (.obj .nil) .nil)))).isNone = true := by
  decide

/-- C6 amended: the filter language accepted by the query path has
exactly the four operator forms of the `Filter` enum — `eq`, `range`,
`in`, `and` all parse (given well-formed payload fields), evaluation is
defined (total) on every parsed filter, and any filter tagged `or` or
`not` fails to parse. -/
theorem C6_filter_language_four_forms (fs : Codec.JsonFields) (fuel : Nat)
    (field : String) (value : AttributeValue) (vj : Codec.Json)
    (gte lte gt lt : Option Int) (vsj : Codec.JsonList)
    (values : List AttributeValue) (es : Codec.JsonList) (gs : List Filter) :
    (Codec.objLookup fs (String.toList "op") = some (.str (String.toList "eq")) →
     Codec.objLookup fs (String.toList "field") = some (.str field.toList) →
     Codec.objLookup fs (String.toList "value") = some vj →
     Codec.decodeAttributeValue vj = some value →
     Codec.filterFromJsonF (fuel + 1) (.obj fs) = some (.eq field value)) ∧
    (Codec.objLookup fs (String.toList "op") = some (.str (String.toList "range")) →
     Codec.objLookup fs (String.toList "field") = some (.str field.toList) →
     Codec.decodeOptNum fs (String.toList "gte") = some gte →
     Codec.decodeOptNum fs (String.toList "lte") = some lte →
     Codec.decodeOptNum fs (String.toList "gt") = some gt →
     Codec.decodeOptNum fs (String.toList "lt") = some lt →
     Codec.filterFromJsonF (fuel + 1) (.obj fs) =
       some (.range field gte lte gt lt)) ∧
    (Codec.objLookup fs (String.toList "op") = some (.str (String.toList "in")) →
     Codec.objLookup fs (String.toList "field") = some (.str field.toList) →
     Codec.objLookup fs (String.toList "values") = some (.arr vsj) →
     Codec.JsonList.mapMOpt Codec.decodeAttributeValue vsj = some values →
     Codec.filterFromJsonF (fuel + 1) (.obj fs) = some (.inList field values)) ∧
    (Codec.objLookup fs (String.toList "op") = some (.str (String.toList "and")) →
     Codec.objLookup fs (String.toList "filters") = some (.arr es) →
     Codec.filterListF fuel es = some gs →
     Codec.filterFromJsonF (fuel + 1) (.obj fs) = some (.and gs)) ∧
    (Codec.objLookup fs (String.toList "op") = some (.str (String.toList "or")) →
     Codec.filterFromJsonF fuel (.obj fs) = none) ∧
    (Codec.objLookup fs (String.toList "op") = some (.str (String.toList "not")) →
     Codec.filterFromJsonF fuel (.obj fs) = none) ∧
    (∀ (g : Filter) (attrs : Attrs),
      evaluateFilter g attrs = true ∨ evaluateFilter g attrs = false) := by
  refine ⟨?_, ?_, ?_, ?_, ?_, ?_, fun g attrs => Bool.eq_false_or_eq_true _⟩
  · intro h1 h2 h3 h4
    rw [Codec.filterFromJsonF, h1]
    simp only [if_pos rfl]
    rw [h2, h3]
    simp [Codec.decodeString, string_mk_toList, h4]
  · intro h1 h2 h3 h4 h5 h6
    rw [Codec.filterFromJsonF, h1]
    simp only [String.toList] at h2 h3 h4 h5 h6
    simp [h2, h3, h4, h5, h6, Codec.decodeString, string_mk_toList]
  · intro h1 h2 h3 h4
    rw [Codec.filterFromJsonF, h1]
    simp only [String.toList] at h2 h3
    simp [h2, h3, h4, Codec.decodeString, string_mk_toList]
  · intro h1 h2 h3
    rw [Codec.filterFromJsonF, h1]
    simp only [String.toList] at h2
    simp [h2, h3, Codec.decodeString, string_mk_toList]
  · intro h1
    cases fuel with
    | zero => rfl
    | succ fuel =>
      rw [Codec.filterFromJsonF, h1]
      simp
  · intro h1
    cases fuel with
    | zero => rfl
    | succ fuel =>
      rw [Codec.filterFromJsonF, h1]
      simp

/-- C6 witness: concrete request filters of each supported form parse to
the expected `Filter`, and concrete `or`/`not` filters are rejected. -/
theorem C6_filter_language_four_forms_witness :
    Codec.filterFromJsonF 3 (.obj (.cons (String.toList "op")
      (.str (String.toList "eq")) (.cons (String.toList "field")
      (.str (String.toList "category")) (.cons (String.toList "value")
      (.num 3) .nil)))) = some (.eq "category" (.integer 3)) ∧
    Codec.filterFromJsonF 3 (.obj (.cons (String.toList "op")
      (.str (String.toList "range")) (.cons (String.toList "field")
      (.str (String.toList "score")) (.cons (String.toList "gte")
      (.num 1) .nil)))) = some (.range "score" (some 1) none none none) ∧
    Codec.filterFromJsonF 3 (.obj (.cons (String.toList "op")
      (.str (String.toList "in")) (.cons (String.toList "field")
      (.str (String.toList "tag")) (.cons (String.toList "values")
      (.arr (.cons (.str (String.toList "a")) .nil)) .nil)))) =
      some (.inList "tag" [.string "a"]) ∧
    Codec.filterFromJsonF 3 (.obj (.cons (String.toList "op")
      (.str (String.toList "and")) (.cons (String.toList "filters")
      (.arr .nil) .nil))) = some (.and []) ∧
    Codec.filterFromJsonF 3 (.obj (.cons (String.toList "op")
      (.str (String.toList "or")) (.cons (String.toList "filters")
      (.arr .nil) .nil))) = none ∧
    Codec.filterFromJsonF 3 (.obj (.cons (String.toList "op")
      (.str (String.toList "not")) (.cons (String.toList "filter")
      (.obj .nil) .nil))) = none := by
  refine ⟨?_, ?_, ?_, ?_, ?_, ?_⟩
  · exact (C6_filter_language_four_forms _ 2 "category" (.integer 3) (.num 3)
      none none none none .nil [] .nil []).1 (by rfl) (by rfl) (by rfl) (by rfl)
  · exact (C6_filter_language_four_forms _ 2 "score" (.integer 0) .null
      (some 1) none none none .nil [] .nil []).2.1 (by rfl) (by rfl) (by rfl)
      (by rfl) (by rfl) (by rfl)
  · exact (C6_filter_language_four_forms _ 2 "tag" (.integer 0) .null
      none none none none (.cons (.str (String.toList "a")) .nil)
      [.string "a"] .nil []).2.2.1 (by rfl) (by rfl) (by rfl) (by rfl)
  · exact (C6_filter_language_four_forms _ 2 "x" (.integer 0) .null
      none none none none .nil [] .nil []).2.2.2.1 (by rfl) (by rfl) (by rfl)
  · exact (C6_filter_language_four_forms _ 3 "x" (.integer 0) .null
      none none none none .nil [] .nil []).2.2.2.2.1 (by rfl)
  · exact (C6_filter_language_four_forms _ 3 "x" (.integer 0) .null
      none none none none .nil [] .nil []).2.2.2.2.2.1 (by rfl)

/-- C5: fragment visibility is atomic with respect to the manifest.  If
the manifest PUT fails after the fragment PUT succeeded, `append` returns
the error and the resulting store holds the orphaned fragment object with
the manifest object unchanged; the reader is unaffected by the orphan.
And whenever the reader succeeds, a fragment is in its output iff it was
read from the key of a committed manifest reference — in particular the
orphan (whose id is fresh) is never returned. -/
theorem C5_fragment_visibility_atomic (store : Store) (ns : String)
    (vectors : List VectorEntry) (deletes : List VectorId) (id : Ulid) (now : Nat)
    (m : Manifest)
    (hman : Store.get store (Manifest.s3_key ns) = some (.man m) ∨
      (Store.get store (Manifest.s3_key ns) = none ∧ m.fragments = []))
    (hfresh : ∀ fref ∈ m.fragments,
      WalFragment.s3_key ns fref.id ≠ WalFragment.s3_key ns id)
    (hstored : ∀ fref ∈ m.fragments, ∀ f : WalFragment,
      Store.get store (WalFragment.s3_key ns fref.id) = some (.frag f) → f.id ≠ id) :
    WalWriter.append store ns vectors deletes id now true false =
      (.error .storage,
       store.put (WalFragment.s3_key ns id) (.frag ⟨id, vectors, deletes⟩)) ∧
    Store.get (store.put (WalFragment.s3_key ns id) (.frag ⟨id, vectors, deletes⟩))
        (Manifest.s3_key ns) = Store.get store (Manifest.s3_key ns) ∧
    WalReader.read_uncompacted_fragments
        (store.put (WalFragment.s3_key ns id) (.frag ⟨id, vectors, deletes⟩)) ns =
      WalReader.read_uncompacted_fragments store ns ∧
    (∀ l, WalReader.read_uncompacted_fragments store ns = .ok l →
      (∀ g ∈ l, g.id ≠ id) ∧
      (∀ g ∈ l, ∃ fref ∈ m.fragments,
        Store.get store (WalFragment.s3_key ns fref.id) = some (.frag g)) ∧
      (∀ fref ∈ m.fragments, ∃ g ∈ l,
        Store.get store (WalFragment.s3_key ns fref.id) = some (.frag g))) := by
  have hget_m : Store.get
      (store.put (WalFragment.s3_key ns id) (.frag ⟨id, vectors, deletes⟩))
      (Manifest.s3_key ns) = Store.get store (Manifest.s3_key ns) := by
    simp [Store.get, Store.put, List.find?, (manifest_key_ne_frag_key ns id).symm]
  have hget_f : ∀ fref ∈ m.fragments, Store.get
      (store.put (WalFragment.s3_key ns id) (.frag ⟨id, vectors, deletes⟩))
      (WalFragment.s3_key ns fref.id) =
      Store.get store (WalFragment.s3_key ns fref.id) := by
    intro fref hfr
    simp [Store.get, Store.put, List.find?, (hfresh fref hfr).symm]
  refine ⟨?_, hget_m, ?_, ?_⟩
  · unfold WalWriter.append
    simp only [if_true]
    rw [hget_m]
    rcases hman with hm | ⟨hm, _⟩ <;> rw [hm] <;> rfl
  · unfold WalReader.read_uncompacted_fragments
    rw [hget_m]
    rcases hman with hm | ⟨hm, _⟩ <;> rw [hm]
    show (do
        let fragments ← WalReader.read_fragments_loop
          (store.put (WalFragment.s3_key ns id) (.frag ⟨id, vectors, deletes⟩)) ns
          m.uncompacted_fragments
        Except.ok (stableSort (fun (a b : WalFragment) => a.id < b.id) fragments)) = (do
        let fragments ← WalReader.read_fragments_loop store ns m.uncompacted_fragments
        Except.ok (stableSort (fun (a b : WalFragment) => a.id < b.id) fragments))
    rw [read_fragments_loop_congr store _ ns m.uncompacted_fragments hget_f]
  · intro l hl
    unfold WalReader.read_uncompacted_fragments at hl
    rcases hman with hm | ⟨hm, hfr0⟩
    · rw [hm] at hl
      replace hl : (do
          let fragments ← WalReader.read_fragments_loop store ns m.uncompacted_fragments
          Except.ok (stableSort (fun (a b : WalFragment) => a.id < b.id) fragments)) =
        Except.ok l := hl
      cases hloop : WalReader.read_fragments_loop store ns m.uncompacted_fragments with
      | error e => rw [hloop] at hl; cases hl
      | ok fs =>
        rw [hloop] at hl
        cases hl
        have hsrc := read_fragments_loop_sources store ns m.uncompacted_fragments fs hloop
        have hcpl := read_fragments_loop_complete store ns m.uncompacted_fragments fs hloop
        refine ⟨?_, ?_, ?_⟩
        · intro g hg
          obtain ⟨fref, hfref, hget⟩ := hsrc g (mem_stableSort.mp hg)
          exact hstored fref hfref g hget
        · intro g hg
          exact hsrc g (mem_stableSort.mp hg)
        · intro fref hfref
          obtain ⟨g, hg, hget⟩ := hcpl fref hfref
          exact ⟨g, mem_stableSort.mpr hg, hget⟩
    · rw [hm] at hl
      replace hl : (Except.ok [] : Except ZeppelinError (List WalFragment)) =
        Except.ok l := hl
      cases hl
      refine ⟨fun g hg => absurd hg (List.not_mem_nil g),
        fun g hg => absurd hg (List.not_mem_nil g), ?_⟩
      intro fref hfref
      rw [hfr0] at hfref
      exact absurd hfref (List.not_mem_nil fref)

/-- C5 witness: a concrete store (manifest referencing fragment 1, its
object present) and a failed manifest PUT for fresh fragment 2 — append
errors, the orphan object is present, the manifest and the reader's view
are unchanged. -/
theorem C5_fragment_visibility_atomic_witness :
    WalWriter.append
      [(Manifest.s3_key "n", .man ⟨[⟨1, 0, 1⟩], [], none, none, 0⟩),
       (WalFragment.s3_key "n" 1, .frag ⟨1, [], ["x"]⟩)]
      "n" [] ["y"] 2 7 true false =
      (.error .storage,
       Store.put
        [(Manifest.s3_key "n", .man ⟨[⟨1, 0, 1⟩], [], none, none, 0⟩),
         (WalFragment.s3_key "n" 1, .frag ⟨1, [], ["x"]⟩)]
        (WalFragment.s3_key "n" 2) (.frag ⟨2, [], ["y"]⟩)) ∧
    WalReader.read_uncompacted_fragments
      (Store.put
        [(Manifest.s3_key "n", .man ⟨[⟨1, 0, 1⟩], [], none, none, 0⟩),
         (WalFragment.s3_key "n" 1, .frag ⟨1, [], ["x"]⟩)]
        (WalFragment.s3_key "n" 2) (.frag ⟨2, [], ["y"]⟩)) "n" =
    WalReader.read_uncompacted_fragments
      [(Manifest.s3_key "n", .man ⟨[⟨1, 0, 1⟩], [], none, none, 0⟩),
       (WalFragment.s3_key "n" 1, .frag ⟨1, [], ["x"]⟩)] "n" := by
  have h := C5_fragment_visibility_atomic
    [(Manifest.s3_key "n", .man ⟨[⟨1, 0, 1⟩], [], none, none, 0⟩),
     (WalFragment.s3_key "n" 1, .frag ⟨1, [], ["x"]⟩)]
    "n" [] ["y"] 2 7 ⟨[⟨1, 0, 1⟩], [], none, none, 0⟩
    (Or.inl (by decide)) (by decide)
    (by
      intro fref hfr f hget
      simp only [List.mem_singleton] at hfr
      subst hfr
      have h1 : some (StoreVal.frag ⟨1, [], ["x"]⟩) = some (StoreVal.frag f) := hget
      cases h1
      decide)
  exact ⟨h.1, h.2.2.1⟩

/-- C10: in hierarchical beam search, when a level contains both leaf and
internal nodes, the candidates scanned from the level's leaf clusters are
returned only when no internal node survives in the beam; when at least
one internal node remains, they are discarded — the loop's result is
exactly the result of continuing the descent on the internal ids alone
(independent of the scanned leaf results `lres`). -/
theorem C10_mixed_level_leaf_results_discarded (env : SegmentEnv) (query : List Val)
    (top_k beam : Nat) (filter : Option Filter) (oversample : Nat)
    (quant : QuantizationType) (fuel : Nat) (current_ids : List String)
    (entries : List (String × Score × Bool)) (lres : List SearchResult)
    (hcollect : collect_level env query current_ids = .ok (entries, true, true))
    (hscan : scan_leaf_clusters env quant
        ((((stableSort (fun a b => a.2.1 < b.2.1) entries).take beam).filter
          (fun e => e.2.2)).filterMap (fun e => parseClusterIdx e.1)) query top_k
        filter oversample = .ok lres) :
    descend_loop env query top_k beam filter oversample quant (fuel + 1) current_ids =
      if ((((stableSort (fun a b => a.2.1 < b.2.1) entries).take beam).filter
            (fun e => !e.2.2)).map (fun e => e.1)).isEmpty
      then .ok lres
      else descend_loop env query top_k beam filter oversample quant fuel
        ((((stableSort (fun a b => a.2.1 < b.2.1) entries).take beam).filter
          (fun e => !e.2.2)).map (fun e => e.1)) := by
  rw [descend_loop]
  rw [hcollect]
  show (do
    let next_beam := (stableSort
      (fun (a b : String × Score × Bool) => a.2.1 < b.2.1) entries).take beam
    if true && !true then
      scan_leaf_clusters env quant
        (next_beam.filterMap (fun (e : String × Score × Bool) => parseClusterIdx e.1))
        query top_k filter oversample
    else if true && true then do
      let leaf_clusters := (next_beam.filter
        (fun (e : String × Score × Bool) => e.2.2)).filterMap
        (fun (e : String × Score × Bool) => parseClusterIdx e.1)
      let internal_ids := (next_beam.filter
        (fun (e : String × Score × Bool) => !e.2.2)).map
        (fun (e : String × Score × Bool) => e.1)
      let leaf_results ← scan_leaf_clusters env quant leaf_clusters query
        top_k filter oversample
      if internal_ids.isEmpty then .ok leaf_results
      else descend_loop env query top_k beam filter oversample quant fuel internal_ids
    else
      let current := next_beam.map (fun (e : String × Score × Bool) => e.1)
      if current.isEmpty then .ok []
      else descend_loop env query top_k beam filter oversample quant fuel current) = _
  rw [show (true && !true) = false by rfl, show (true && true) = true by rfl]
  simp only [if_false, if_true, Bool.false_eq_true]
  rw [hscan]
  rfl

/-- C10 witness: a concrete mixed level — node `L` is a leaf holding
cluster `7`, node `I` is internal pointing at leaf `I2` — where the
descent continues on `["I2"]` and the scanned results of cluster `7` are
discarded. -/
theorem C10_mixed_level_leaf_results_discarded_witness :
    descend_loop
      { dist := fun _ _ => 0,
        node := fun nid =>
          if nid = "L" then .ok ⟨true, [[0]], ["7"]⟩
          else if nid = "I" then .ok ⟨false, [[0]], ["I2"]⟩
          else if nid = "I2" then .ok ⟨true, [[0]], ["3"]⟩
          else .missing,
        cluster := fun i =>
          if i = 3 then .ok ⟨["b"], [[2]]⟩
          else if i = 7 then .ok ⟨["a"], [[1]]⟩
          else .missing,
        attrsData := fun _ => .missing, sqCluster := fun _ => .missing,
        pqCluster := fun _ => .missing, sqCal := .missing, pqCodebook := .missing }
      [0] 1 2 none 1 .none 2 ["L", "I"] =
    descend_loop
      { dist := fun _ _ => 0,
        node := fun nid =>
          if nid = "L" then .ok ⟨true, [[0]], ["7"]⟩
          else if nid = "I" then .ok ⟨false, [[0]], ["I2"]⟩
          else if nid = "I2" then .ok ⟨true, [[0]], ["3"]⟩
          else .missing,
        cluster := fun i =>
          if i = 3 then .ok ⟨["b"], [[2]]⟩
          else if i = 7 then .ok ⟨["a"], [[1]]⟩
          else .missing,
        attrsData := fun _ => .missing, sqCluster := fun _ => .missing,
        pqCluster := fun _ => .missing, sqCal := .missing, pqCodebook := .missing }
      [0] 1 2 none 1 .none 1 ["I2"] := by
  have h := C10_mixed_level_leaf_results_discarded
    { dist := fun _ _ => 0,
      node := fun nid =>
        if nid = "L" then .ok ⟨true, [[0]], ["7"]⟩
        else if nid = "I" then .ok ⟨false, [[0]], ["I2"]⟩
        else if nid = "I2" then .ok ⟨true, [[0]], ["3"]⟩
        else .missing,
      cluster := fun i =>
        if i = 3 then .ok ⟨["b"], [[2]]⟩
        else if i = 7 then .ok ⟨["a"], [[1]]⟩
        else .missing,
      attrsData := fun _ => .missing, sqCluster := fun _ => .missing,
      pqCluster := fun _ => .missing, sqCal := .missing, pqCodebook := .missing }
    [0] 1 2 none 1 .none 1 ["L", "I"] [("7", 0, true), ("I2", 0, false)]
    [⟨"a", 0, none⟩] (by decide) (by decide)
  rw [h, if_neg (by decide)]
  rfl

/-- C4: after any sequence of WAL appends and compaction commits on a
namespace, the manifest invariant holds: fragment ids strictly ascending
in order, and every fragment id strictly above the compaction watermark
when one is set.  (The freshness of appended ids is the model of the
"freshly generated monotonic time-ordered ULID" of spec §4.3 step 2.) -/
theorem C4_manifest_monotonic (m : Manifest) (h : ManifestReach m) :
    Manifest.Inv m := by
  induction h with
  | init now =>
    exact ⟨List.Pairwise.nil, fun w hw => by simp [Manifest.new] at hw⟩
  | append m id vc dc now hreach hfresh hwm ih =>
    refine ⟨?_, ?_⟩
    · refine List.pairwise_append.mpr ⟨ih.1, List.pairwise_singleton _ _, ?_⟩
      intro a ha b hb
      rw [List.mem_singleton.mp hb]
      exact hfresh a ha
    · intro w hw f hf
      have hw' : m.compaction_watermark = some w := hw
      rcases List.mem_append.mp hf with h1 | h2
      · exact ih.2 w hw' f h1
      · rw [List.mem_singleton.mp h2]
        exact hwm w hw'
  | compact m w sref now now' hreach ih =>
    refine ⟨?_, ?_⟩
    · simpa [Manifest.add_segment, Manifest.remove_compacted_fragments]
        using ih.1.filter (fun f => decide (w < f.id))
    · intro w' hw' f hf
      simp only [Manifest.add_segment, Manifest.remove_compacted_fragments,
        Option.some.injEq] at hw' hf
      obtain ⟨hmem, hpred⟩ := List.mem_filter.mp hf
      rw [← hw']
      exact of_decide_eq_true hpred

/-- C4 witness: a concrete reachable history — empty manifest, append of
fragment 5, compaction commit with watermark 3 — satisfies the
invariant. -/
theorem C4_manifest_monotonic_witness :
    Manifest.Inv ((((Manifest.new 0).add_fragment ⟨5, 1, 0⟩ 1).remove_compacted_fragments
      3 2).add_segment ⟨"seg", 1, 1⟩ 3) :=
  C4_manifest_monotonic _
    (ManifestReach.compact _ 3 ⟨"seg", 1, 1⟩ 2 3
      (ManifestReach.append (Manifest.new 0) 5 1 0 1 (ManifestReach.init 0)
        (by decide) (fun w hw => nomatch hw)))

/-- C7: an upsert whose batch contains a vector of the wrong length, and
a query whose vector has the wrong length, both fail with
`DimensionMismatch` (HTTP 400) and mutate no persistent state (the
upsert returns the store unchanged — no WAL fragment is written, the
manifest untouched; the query path never writes). -/
theorem C7_dimension_mismatch_rejected (dims : Nat) (vectors : List VectorEntry)
    (store : Store) (ns : String) (id : Ulid) (now : Nat) (fput mput : Bool)
    (vector : List Val) (top_k max_top_k : Nat) (filter : Option Filter)
    (consistency : ConsistencyLevel) (fragments : List WalFragment)
    (segment_results : List SearchResult) (dist : List Val → List Val → Score)
    (hup : ∃ v ∈ vectors, v.values.length ≠ dims)
    (hq : vector.length ≠ dims) (htk0 : top_k ≠ 0) (htk : top_k ≤ max_top_k) :
    (∃ act, act ≠ dims ∧
      upsert_vectors dims vectors store ns id now fput mput =
        (.error (.dimensionMismatch dims act), store) ∧
      (ZeppelinError.dimensionMismatch dims act).status_code = 400) ∧
    query_namespace_vector dims max_top_k vector top_k filter consistency
        fragments segment_results dist =
      .error (.dimensionMismatch dims vector.length) ∧
    (ZeppelinError.dimensionMismatch dims vector.length).status_code = 400 := by
  refine ⟨?_, ?_, rfl⟩
  · cases hfind : vectors.find? (fun v => v.values.length ≠ dims) with
    | none =>
      obtain ⟨v, hv, hlen⟩ := hup
      have := List.find?_eq_none.mp hfind v hv
      simp [hlen] at this
    | some v =>
      have hv := List.find?_some hfind
      refine ⟨v.values.length, by simpa using hv, ?_, rfl⟩
      unfold upsert_vectors
      rw [hfind]
  · simp [query_namespace_vector, htk0, Nat.not_lt.mpr htk, hq]

/-- C7 witness: concrete instances — a 2-long vector against a
4-dimensional namespace is rejected on both paths with status 400 and an
unchanged store. -/
theorem C7_dimension_mismatch_rejected_witness :
    (∃ act, act ≠ 4 ∧
      upsert_vectors 4 [⟨"v", [1, 2], none⟩] [] "ns" 1 0 true true =
        (.error (.dimensionMismatch 4 act), []) ∧
      (ZeppelinError.dimensionMismatch 4 act).status_code = 400) ∧
    query_namespace_vector 4 10 [1, 2] 1 none .strong [] [] (fun _ _ => 0) =
      .error (.dimensionMismatch 4 2) ∧
    (ZeppelinError.dimensionMismatch 4 2).status_code = 400 := by
  have h := C7_dimension_mismatch_rejected 4 [⟨"v", [1, 2], none⟩] [] "ns" 1 0
    true true [1, 2] 1 10 none .strong [] [] (fun _ _ => 0)
    ⟨⟨"v", [1, 2], none⟩, by decide, by decide⟩ (by decide) (by decide) (by decide)
  simpa using h

end Zeppelin

/-! ## Theorems -/

namespace Zeppelin

/-- C1: for every namespace and vector id, after a successful `delete(id)`
with no later upsert of `id`, every subsequent query (at either
consistency level — in particular a strong query while `id` is still in
the active segment) returns a result list not containing `id`.  The code
refutes this: `wal_scan` drops tombstoned ids from its result set, and
`merge_results` filters segment hits only against the surviving WAL ids,
so the deleted id's segment hit is returned.  This theorem evaluates the
query data path at the failing input: one WAL fragment deleting `"v1"`,
an active segment still holding `"v1"`, a strong query — the merged
results contain `"v1"`. -/
theorem C1_tombstone_not_honored :
    "v1" ∈ (execute_query_merge [⟨77, [], ["v1"]⟩] [⟨"v1", 5, none⟩] [0] 10
      none .strong (fun _ _ => 0)).map (fun r => r.id) := by decide

/-- C2: every WAL append is claimed to run under a single per-namespace
mutex, with any two lock acquisitions for a namespace returning the same
lock.  The code refutes this: `WalWriter::namespace_lock` returns
`Arc::new(Mutex::new(()))` — a fresh mutex — on every call (and `append`
never even calls it).  Two consecutive acquisitions for the same
namespace yield distinct locks. -/
theorem C2_namespace_lock_returns_fresh_mutex :
    (WalWriter.namespace_lock "ns" ⟨0⟩).1 ≠
      (WalWriter.namespace_lock "ns" (WalWriter.namespace_lock "ns" ⟨0⟩).2).1 := by
  decide

/-- C8 counterexample: the claim says a probed cluster whose bytes fail
to deserialize is skipped and the search continues best-effort.  In the
code `deserialize_cluster(…)?` propagates the error: with cluster 0
corrupt and cluster 1 intact, the whole flat scan returns an error
instead of returning cluster 1's results. -/
theorem C8_counterexample_corrupt_cluster_aborts :
    (scan_clusters_flat
      { dist := fun _ _ => 0, node := fun _ => .missing,
        cluster := fun i => if i = 0 then .corrupt else .ok ⟨["a"], [[1]]⟩,
        attrsData := fun _ => .missing, sqCluster := fun _ => .missing,
        pqCluster := fun _ => .missing, sqCal := .missing, pqCodebook := .missing }
      [0, 1] [0]) = .error (.bincode "deserialize_cluster") := by rfl

/-- C8 amended: in the flat segment scan, a probed cluster whose FETCH
fails is skipped and results are returned best-effort from the remaining
clusters; but a cluster whose fetched bytes fail to DESERIALIZE aborts
the whole scan with an error. -/
theorem C8_flat_scan_skip_fetch_abort_corrupt (env : SegmentEnv)
    (query : List Val) (indices : List Nat) :
    ((∀ i ∈ indices, env.cluster i ≠ Fetched.corrupt) →
      scan_clusters_flat env indices query =
        .ok ((indices.map (fun i =>
          match env.cluster i with
          | .ok c => clusterCandidates env query c (load_attrs env i)
          | _ => [])).flatten)) ∧
    ((∃ i ∈ indices, env.cluster i = Fetched.corrupt) →
      scan_clusters_flat env indices query = .error (.bincode "deserialize_cluster")) := by
  induction indices with
  | nil =>
    refine ⟨fun _ => rfl, ?_⟩
    rintro ⟨i, hi, _⟩
    exact absurd hi (List.not_mem_nil i)
  | cons i rest ih =>
    constructor
    · intro h
      have hi := h i (List.mem_cons_self i rest)
      have hrest := ih.1 (fun j hj => h j (List.mem_cons_of_mem i hj))
      cases hc : env.cluster i with
      | missing => simp [scan_clusters_flat, hc, hrest]
      | corrupt => exact absurd hc hi
      | ok c =>
        simp only [scan_clusters_flat, hc, hrest, List.map_cons, List.flatten_cons]
        rfl
    · rintro ⟨j, hj, hcj⟩
      rcases List.mem_cons.mp hj with rfl | hj'
      · cases hc : env.cluster j with
        | missing => rw [hcj] at hc; cases hc
        | ok c => rw [hcj] at hc; cases hc
        | corrupt => simp [scan_clusters_flat, hc]
      · cases hc : env.cluster i with
        | missing => simpa [scan_clusters_flat, hc] using ih.2 ⟨j, hj', hcj⟩
        | corrupt => simp [scan_clusters_flat, hc]
        | ok c =>
          have hrest := ih.2 ⟨j, hj', hcj⟩
          simp only [scan_clusters_flat, hc, hrest]
          rfl

/-- C8 witness: the amended behavior at concrete inputs — with cluster 0
missing (fetch failure) and cluster 1 intact, the scan succeeds with
cluster 1's candidates; with cluster 0 corrupt, it errors. -/
theorem C8_flat_scan_skip_fetch_abort_corrupt_witness :
    scan_clusters_flat
      { dist := fun _ _ => 0, node := fun _ => .missing,
        cluster := fun i => if i = 0 then .missing else .ok ⟨["a"], [[1]]⟩,
        attrsData := fun _ => .missing, sqCluster := fun _ => .missing,
        pqCluster := fun _ => .missing, sqCal := .missing, pqCodebook := .missing }
      [0, 1] [0] = .ok [⟨"a", 0, none⟩] ∧
    scan_clusters_flat
      { dist := fun _ _ => 0, node := fun _ => .missing,
        cluster := fun i => if i = 0 then .corrupt else .ok ⟨["a"], [[1]]⟩,
        attrsData := fun _ => .missing, sqCluster := fun _ => .missing,
        pqCluster := fun _ => .missing, sqCal := .missing, pqCodebook := .missing }
      [0, 1] [0] = .error (.bincode "deserialize_cluster") :=
  ⟨((C8_flat_scan_skip_fetch_abort_corrupt _ _ _).1 (by decide)).trans (by rfl),
   (C8_flat_scan_skip_fetch_abort_corrupt _ _ _).2 ⟨0, by decide, by rfl⟩⟩

/-- The upsert handler on an all-valid batch of any size performs the WAL
append (helper for C9; note there is no size argument anywhere to check
against). -/
theorem upsert_vectors_all_valid_appends (dims : Nat) (vs : List VectorEntry)
    (ns : String) (id : Ulid) (now : Nat)
    (hfind : vs.find? (fun v => v.values.length ≠ dims) = none)
    (hkey : Manifest.s3_key ns ≠ WalFragment.s3_key ns id) :
    (upsert_vectors dims vs [] ns id now true true).1 = .ok vs.length ∧
    (upsert_vectors dims vs [] ns id now true true).2.get
        (WalFragment.s3_key ns id) = some (.frag ⟨id, vs, []⟩) := by
  have hget : (Store.get [(WalFragment.s3_key ns id, StoreVal.frag ⟨id, vs, []⟩)]
      (Manifest.s3_key ns)) = none := by
    simp [Store.get, List.find?, hkey.symm]
  constructor
  · simp only [upsert_vectors, hfind, WalWriter.append, Store.put, if_pos]
    rw [hget]
  · simp only [upsert_vectors, hfind, WalWriter.append, Store.put, if_pos]
    rw [hget]
    simp [Store.get, List.find?, hkey]

/-- C9: upsert batches above `server.max_batch_size` (default 10000) are
claimed to be rejected with a 400 validation error before any WAL write.
The handler has no batch-size (or emptiness) check at all — this theorem
evaluates it on a 10001-vector batch: the request succeeds with
`upserted = 10001` and the WAL fragment holding all 10001 vectors is
written.  The repository's own test
`tests/hardening_tests.rs::test_oversized_batch_400` asserts status 400
for exactly this input. -/
theorem C9_oversized_batch_not_rejected :
    (upsert_vectors 4 (List.replicate 10001 ⟨"v", [1, 0, 0, 0], none⟩) []
      "ns" 1 0 true true).1 = .ok 10001 ∧
    (upsert_vectors 4 (List.replicate 10001 ⟨"v", [1, 0, 0, 0], none⟩) []
        "ns" 1 0 true true).2.get (WalFragment.s3_key "ns" 1) =
      some (.frag ⟨1, List.replicate 10001 ⟨"v", [1, 0, 0, 0], none⟩, []⟩) := by
  have hfind : (List.replicate 10001 (⟨"v", [1, 0, 0, 0], none⟩ : VectorEntry)).find?
      (fun v => v.values.length ≠ 4) = none := by
    rw [List.find?_eq_none]
    intro x hx
    rw [List.eq_of_mem_replicate hx]
    decide
  have h := upsert_vectors_all_valid_appends 4
    (List.replicate 10001 ⟨"v", [1, 0, 0, 0], none⟩) "ns" 1 0 hfind (by decide)
  rw [List.length_replicate] at h
  exact h

end Zeppelin

namespace Zeppelin
namespace Codec

/-- Value of a digit character. -/
theorem digitVal_digitChar (d : Nat) (h : d < 10) : digitVal (digitChar d) = d := by
  interval_cases d <;> decide

/-- Digit characters are digits. -/
theorem isDigitC_digitChar (d : Nat) (h : d < 10) : isDigitC (digitChar d) = true := by
  interval_cases d <;> decide

/-- A digit character is not any character outside the digit range. -/
theorem digit_ne (c x : Char) (hc : isDigitC c = true)
    (hx : isDigitC x = false) : c ≠ x := by
  intro h
  rw [h] at hc
  rw [hc] at hx
  cases hx

/-- `takeWhile` passes over a prefix wholly satisfying the predicate. -/
theorem takeWhile_append_of_all {p : α → Bool} (s t : List α)
    (h : ∀ c ∈ s, p c = true) :
    (s ++ t).takeWhile p = s ++ t.takeWhile p := by
  induction s with
  | nil => rfl
  | cons c cs ih =>
    simp only [List.cons_append, List.takeWhile_cons,
      h c (List.mem_cons_self c cs), if_true]
    rw [ih (fun x hx => h x (List.mem_cons_of_mem c hx))]

/-- `dropWhile` drops a prefix wholly satisfying the predicate. -/
theorem dropWhile_append_of_all {p : α → Bool} (s t : List α)
    (h : ∀ c ∈ s, p c = true) :
    (s ++ t).dropWhile p = t.dropWhile p := by
  induction s with
  | nil => rfl
  | cons c cs ih =>
    simp only [List.cons_append, List.dropWhile_cons,
      h c (List.mem_cons_self c cs), if_true]
    exact ih (fun x hx => h x (List.mem_cons_of_mem c hx))

/-- A singleton digit run evaluates to the digit. -/
theorem digitsVal_singleton (c : Char) : digitsVal [c] = digitVal c := by
  simp [digitsVal]

/-- Appending one digit multiplies by ten and adds it. -/
theorem digitsVal_append_digit (ds : List Char) (c : Char) :
    digitsVal (ds ++ [c]) = digitsVal ds * 10 + digitVal c := by
  simp [digitsVal, List.foldl_append]

/-- Correctness of the fueled digit renderer. -/
theorem renderNatAux_spec : ∀ (fuel n : Nat), n < 10 ^ (fuel + 1) →
    renderNatAux (fuel + 1) n ≠ [] ∧
    (∀ c ∈ renderNatAux (fuel + 1) n, isDigitC c = true) ∧
    digitsVal (renderNatAux (fuel + 1) n) = n := by
  intro fuel
  induction fuel with
  | zero =>
    intro n h
    have h10 : n < 10 := by simpa using h
    rw [renderNatAux, if_pos h10]
    refine ⟨by simp, ?_, ?_⟩
    · intro c hc
      rw [List.mem_singleton.mp hc]
      exact isDigitC_digitChar n h10
    · rw [digitsVal_singleton, digitVal_digitChar n h10]
  | succ fuel ih =>
    intro n h
    by_cases h10 : n < 10
    · rw [renderNatAux, if_pos h10]
      refine ⟨by simp, ?_, ?_⟩
      · intro c hc
        rw [List.mem_singleton.mp hc]
        exact isDigitC_digitChar n h10
      · rw [digitsVal_singleton, digitVal_digitChar n h10]
    · have hdiv : n / 10 < 10 ^ (fuel + 1) := by
        rw [Nat.div_lt_iff_lt_mul (by norm_num : 0 < 10)]
        calc n < 10 ^ (fuel + 1 + 1) := h
        _ = 10 ^ (fuel + 1) * 10 := by ring
      obtain ⟨hne, hdig, hval⟩ := ih (n / 10) hdiv
      rw [renderNatAux, if_neg h10]
      refine ⟨by simp, ?_, ?_⟩
      · intro c hc
        rcases List.mem_append.mp hc with h1 | h2
        · exact hdig c h1
        · rw [List.mem_singleton.mp h2]
          exact isDigitC_digitChar _ (Nat.mod_lt n (by norm_num))
      · rw [digitsVal_append_digit, hval,
          digitVal_digitChar _ (Nat.mod_lt n (by norm_num))]
        omega

/-- Correctness of `renderNat`. -/
theorem renderNat_spec (n : Nat) :
    renderNat n ≠ [] ∧ (∀ c ∈ renderNat n, isDigitC c = true) ∧
    digitsVal (renderNat n) = n := by
  have h : n < 10 ^ (n + 1) :=
    calc n < 2 ^ n := Nat.lt_two_pow n
    _ ≤ 10 ^ n := Nat.pow_le_pow_left (by norm_num) n
    _ ≤ 10 ^ (n + 1) := Nat.pow_le_pow_right (by norm_num) (Nat.le_succ n)
  exact renderNatAux_spec n n h

/-- `parseNatNum` inverts `renderNat` before a digit-free continuation. -/
theorem parseNatNum_renderNat (n : Nat) (rest : List Char)
    (hrest : ∀ c, rest.head? = some c → isDigitC c = false) :
    parseNatNum (renderNat n ++ rest) = some (n, rest) := by
  obtain ⟨hne, hdig, hval⟩ := renderNat_spec n
  have htail : rest.takeWhile isDigitC = [] := by
    cases rest with
    | nil => rfl
    | cons c cs =>
      rw [List.takeWhile_cons, if_neg]
      rw [hrest c rfl]
      simp
  have hdrop : rest.dropWhile isDigitC = rest := by
    cases rest with
    | nil => rfl
    | cons c cs =>
      rw [List.dropWhile_cons, if_neg]
      rw [hrest c rfl]
      simp
  unfold parseNatNum
  rw [takeWhile_append_of_all _ _ hdig, dropWhile_append_of_all _ _ hdig,
    htail, hdrop]
  simp only [List.append_nil]
  rw [if_neg (by simpa using hne), hval]

/-- The empty continuation is numeric-safe. -/
theorem numSafe_nil : NumSafe [] := fun _ h => nomatch h

/-- A continuation headed by a non-digit, non-dot character is
numeric-safe. -/
theorem numSafe_cons (c : Char) (l : List Char) (h1 : isDigitC c = false)
    (h2 : c ≠ '.') : NumSafe (c :: l) := by
  intro d hd
  cases hd
  exact ⟨h1, h2⟩

/-- The zero-fraction tail parses as expected. -/
theorem parseNatNum_zero_tail (rest : List Char)
    (hrest : ∀ c, rest.head? = some c → isDigitC c = false) :
    parseNatNum ('0' :: rest) = some (0, rest) := by
  have htail : rest.takeWhile isDigitC = [] := by
    cases rest with
    | nil => rfl
    | cons c cs =>
      rw [List.takeWhile_cons, if_neg]
      rw [hrest c rfl]
      simp
  have hdrop : rest.dropWhile isDigitC = rest := by
    cases rest with
    | nil => rfl
    | cons c cs =>
      rw [List.dropWhile_cons, if_neg]
      rw [hrest c rfl]
      simp
  unfold parseNatNum
  rw [List.takeWhile_cons, List.dropWhile_cons,
    if_pos (show isDigitC '0' = true by decide),
    if_pos (show isDigitC '0' = true by decide), htail, hdrop]
  rfl

/-- `parseNumMag` inverts integer-number rendering. -/
theorem parseNumMag_nat (n : Nat) (rest : List Char) (hrest : NumSafe rest) :
    parseNumMag (renderNat n ++ rest) = some (.num (n : Int), rest) := by
  unfold parseNumMag
  rw [parseNatNum_renderNat n rest (fun c h => (hrest c h).1)]
  rw [Option.some_bind]
  rw [if_neg]
  intro hdot
  cases rest with
  | nil => cases hdot
  | cons c cs =>
    have h := hrest c rfl
    exact h.2 (by simpa using hdot)

/-- `parseNumMag` inverts float-number rendering. -/
theorem parseNumMag_fnum (n : Nat) (rest : List Char)
    (hrest : ∀ c, rest.head? = some c → isDigitC c = false) :
    parseNumMag (renderNat n ++ '.' :: '0' :: rest) = some (.fnum (n : Int), rest) := by
  unfold parseNumMag
  rw [parseNatNum_renderNat n _ (fun c h => by cases h; decide)]
  rw [Option.some_bind]
  rw [if_pos (show ((n : Nat), '.' :: '0' :: rest).2.head? = some '.' from rfl)]
  show (parseNatNum ('0' :: rest)).bind _ = _
  rw [parseNatNum_zero_tail rest hrest, Option.some_bind]
  rfl

/-- `parseNumTok` inverts `renderInt` for integer-typed numbers. -/
theorem parseNumTok_num (v : Int) (rest : List Char) (hrest : NumSafe rest) :
    parseNumTok (renderInt v ++ rest) = some (.num v, rest) := by
  by_cases hv : v < 0
  · rw [renderInt, if_pos hv]
    unfold parseNumTok
    rw [if_pos (by rfl)]
    show (parseNumMag (renderNat v.natAbs ++ rest)).map _ = _
    rw [parseNumMag_nat v.natAbs rest hrest]
    show some (Json.num (-(v.natAbs : Int)), rest) = some (Json.num v, rest)
    rw [show -(v.natAbs : Int) = v by omega]
  · rw [renderInt, if_neg hv]
    obtain ⟨hne, hdig, _⟩ := renderNat_spec v.toNat
    unfold parseNumTok
    rw [if_neg]
    · have h := parseNumMag_nat v.toNat rest hrest
      rw [h]
      have hco : ((v.toNat : Nat) : Int) = v := by omega
      rw [hco]
    · intro hm
      cases hsh : renderNat v.toNat with
      | nil => exact absurd hsh hne
      | cons c cs =>
        have hc : isDigitC c = true :=
          hdig c (by rw [hsh]; exact List.mem_cons_self c cs)
        rw [hsh] at hm
        have : c = '-' := by simpa using hm
        exact digit_ne c '-' hc (by decide) this

/-- `parseNumTok` inverts `renderInt ++ ".0"` for float-typed numbers. -/
theorem parseNumTok_fnum (v : Int) (rest : List Char)
    (hrest : ∀ c, rest.head? = some c → isDigitC c = false) :
    parseNumTok (renderInt v ++ '.' :: '0' :: rest) = some (.fnum v, rest) := by
  by_cases hv : v < 0
  · rw [renderInt, if_pos hv]
    unfold parseNumTok
    rw [if_pos (by rfl)]
    show (parseNumMag (renderNat v.natAbs ++ '.' :: '0' :: rest)).map _ = _
    rw [parseNumMag_fnum v.natAbs rest hrest]
    show some (Json.fnum (-(v.natAbs : Int)), rest) = some (Json.fnum v, rest)
    rw [show -(v.natAbs : Int) = v by omega]
  · rw [renderInt, if_neg hv]
    obtain ⟨hne, hdig, _⟩ := renderNat_spec v.toNat
    unfold parseNumTok
    rw [if_neg]
    · have h := parseNumMag_fnum v.toNat rest hrest
      rw [h]
      have hco : ((v.toNat : Nat) : Int) = v := by omega
      rw [hco]
    · intro hm
      cases hsh : renderNat v.toNat with
      | nil => exact absurd hsh hne
      | cons c cs =>
        have hc : isDigitC c = true :=
          hdig c (by rw [hsh]; exact List.mem_cons_self c cs)
        rw [hsh] at hm
        have hcm : c = '-' := by simpa using hm
        exact digit_ne c '-' hc (by decide) hcm

/-- `parseStringBody` inverts escape-free string-body rendering. -/
theorem parseStringBody_spec (s rest : List Char) (h : ∀ c ∈ s, c ≠ qc) :
    parseStringBody (s ++ qc :: rest) = some (s, rest) := by
  have hp : ∀ c ∈ s, (fun c => decide (c ≠ qc)) c = true := by
    intro c hc
    simpa using h c hc
  unfold parseStringBody
  rw [takeWhile_append_of_all s _ hp, dropWhile_append_of_all s _ hp,
    List.takeWhile_cons, List.dropWhile_cons, if_neg (by simp), if_neg (by simp)]
  simp

/-- Every rendered JSON value is nonempty and never starts with a
list/object terminator. -/
theorem render_head (j : Json) : ∃ c cs, render j = c :: cs ∧ c ≠ ']' ∧ c ≠ rb := by
  cases j with
  | null => exact ⟨'n', _, rfl, by decide, by decide⟩
  | str s => exact ⟨qc, s ++ [qc], rfl, by decide, by decide⟩
  | num n =>
    by_cases hv : n < 0
    · refine ⟨'-', renderNat n.natAbs, ?_, by decide, by decide⟩
      show renderInt n = _
      rw [renderInt, if_pos hv]
    · obtain ⟨hne, hdig, _⟩ := renderNat_spec n.toNat
      cases hsh : renderNat n.toNat with
      | nil => exact absurd hsh hne
      | cons c cs =>
        have hc : isDigitC c = true := hdig c (by rw [hsh]; exact List.mem_cons_self c cs)
        refine ⟨c, cs, ?_, digit_ne c ']' hc (by decide),
          digit_ne c rb hc (by decide)⟩
        show renderInt n = _
        rw [renderInt, if_neg hv, hsh]
  | fnum n =>
    by_cases hv : n < 0
    · refine ⟨'-', renderNat n.natAbs ++ ['.', '0'], ?_, by decide, by decide⟩
      show renderInt n ++ ['.', '0'] = _
      rw [renderInt, if_pos hv]
      rfl
    · obtain ⟨hne, hdig, _⟩ := renderNat_spec n.toNat
      cases hsh : renderNat n.toNat with
      | nil => exact absurd hsh hne
      | cons c cs =>
        have hc : isDigitC c = true := hdig c (by rw [hsh]; exact List.mem_cons_self c cs)
        refine ⟨c, cs ++ ['.', '0'], ?_, digit_ne c ']' hc (by decide),
          digit_ne c rb hc (by decide)⟩
        show renderInt n ++ ['.', '0'] = _
        rw [renderInt, if_neg hv, hsh]
        rfl
  | bool b =>
    cases b
    · exact ⟨'f', _, rfl, by decide, by decide⟩
    · exact ⟨'t', _, rfl, by decide, by decide⟩
  | arr es =>
    cases es with
    | nil => exact ⟨'[', [']'], rfl, by decide, by decide⟩
    | cons e es => exact ⟨'[', _, rfl, by decide, by decide⟩
  | obj fs =>
    cases fs with
    | nil => exact ⟨lb, [rb], rfl, by decide, by decide⟩
    | cons k v fs => exact ⟨lb, _, rfl, by decide, by decide⟩

/-- Every JSON value needs at least one unit of fuel. -/
theorem fsize_pos (j : Json) : 1 ≤ fsize j := by
  cases j <;> simp [fsize]

/-- One-step equation of `parseJ` on a nonempty input. -/
theorem parseJ_succ_cons (fuel : Nat) (c : Char) (rest : List Char) :
    parseJ (fuel + 1) (c :: rest) =
      (if c = qc then (parseStringBody rest).map (fun p => (.str p.1, p.2))
      else if c = lb then
        if rest.head? = some rb then some (.obj .nil, rest.tail)
        else if rest.isEmpty then none
        else (parseFields fuel rest).map (fun p => (.obj p.1, p.2))
      else if c = '[' then
        if rest.head? = some ']' then some (.arr .nil, rest.tail)
        else if rest.isEmpty then none
        else (parseElems fuel rest).map (fun p => (.arr p.1, p.2))
      else if c = 't' then
        match rest with
        | 'r' :: 'u' :: 'e' :: rest' => some (.bool true, rest')
        | _ => none
      else if c = 'f' then
        match rest with
        | 'a' :: 'l' :: 's' :: 'e' :: rest' => some (.bool false, rest')
        | _ => none
      else if c = 'n' then
        match rest with
        | 'u' :: 'l' :: 'l' :: rest' => some (.null, rest')
        | _ => none
      else if isDigitC c || c = '-' then parseNumTok (c :: rest)
      else none) := rfl

/-- One-step equation of `parseElems`. -/
theorem parseElems_succ (fuel : Nat) (input : List Char) :
    parseElems (fuel + 1) input =
      ((parseJ fuel input).bind fun p =>
        if p.2.head? = some ']' then some (.cons p.1 .nil, p.2.tail)
        else if p.2.head? = some ',' then
          (parseElems fuel p.2.tail).map (fun q => (.cons p.1 q.1, q.2))
        else none) := rfl

/-- One-step equation of `parseFields`. -/
theorem parseFields_succ (fuel : Nat) (input : List Char) :
    parseFields (fuel + 1) input =
      (if input.head? = some qc then
        (parseStringBody input.tail).bind fun pk =>
          if pk.2.head? = some ':' then
            (parseJ fuel pk.2.tail).bind fun pv =>
              if pv.2.head? = some rb then some (.cons pk.1 pv.1 .nil, pv.2.tail)
              else if pv.2.head? = some ',' then
                (parseFields fuel pv.2.tail).map
                  (fun q => (.cons pk.1 pv.1 q.1, q.2))
              else none
          else none
      else none) := rfl

/-- Rendered integers are nonempty and begin with a digit or a minus
sign. -/
theorem renderInt_head (v : Int) :
    ∃ c cs, renderInt v = c :: cs ∧ (isDigitC c = true ∨ c = '-') := by
  by_cases hv : v < 0
  · refine ⟨'-', renderNat v.natAbs, ?_, Or.inr rfl⟩
    rw [renderInt, if_pos hv]
  · obtain ⟨hne, hdig, _⟩ := renderNat_spec v.toNat
    cases hsh : renderNat v.toNat with
    | nil => exact absurd hsh hne
    | cons c cs =>
      refine ⟨c, cs, ?_,
        Or.inl (hdig c (by rw [hsh]; exact List.mem_cons_self c cs))⟩
      rw [renderInt, if_neg hv, hsh]

/-- A number-starting character is distinct from any non-digit,
non-minus character. -/
theorem numStart_ne (c : Char) (hc : isDigitC c = true ∨ c = '-') (d : Char)
    (hd : isDigitC d = false) (hd2 : d ≠ '-') : c ≠ d := by
  rcases hc with h | h
  · exact digit_ne c d h hd
  · rw [h]
    exact fun hx => hd2 hx.symm

/-- The continuation after a rendered array element is numeric-safe. -/
theorem numSafe_elemsRest (es : JsonList) (rest : List Char) :
    NumSafe (renderElemsRest es ++ ']' :: rest) := by
  cases es with
  | nil => exact numSafe_cons ']' rest (by decide) (by decide)
  | cons e es =>
    rw [show renderElemsRest (.cons e es) = ',' :: render e ++ renderElemsRest es
      from rfl]
    rw [List.cons_append]
    exact numSafe_cons ',' _ (by decide) (by decide)

/-- The continuation after a rendered object field is numeric-safe. -/
theorem numSafe_fieldsRest (fs : JsonFields) (rest : List Char) :
    NumSafe (renderFieldsRest fs ++ rb :: rest) := by
  cases fs with
  | nil => exact numSafe_cons rb rest (by decide) (by decide)
  | cons k v fs =>
    rw [show renderFieldsRest (.cons k v fs) =
      ',' :: (qc :: k ++ qc :: ':' :: render v) ++ renderFieldsRest fs from rfl]
    rw [List.cons_append]
    exact numSafe_cons ',' _ (by decide) (by decide)

/-- The recursive-descent parser inverts `render` on well-formed values:
the three statements (value, array elements, object fields) proved
simultaneously by induction on the fuel, which every recursive call of
the parser decrements by exactly one. -/
theorem parse_roundtrip (fuel : Nat) :
    (∀ j rest, fsize j ≤ fuel → wfJ j = true → NumSafe rest →
      parseJ fuel (render j ++ rest) = some (j, rest)) ∧
    (∀ e es rest, fsize e + fsizeL es + 1 ≤ fuel → (wfJ e && wfL es) = true →
      NumSafe rest →
      parseElems fuel (render e ++ renderElemsRest es ++ ']' :: rest) =
        some (.cons e es, rest)) ∧
    (∀ k v fs rest, fsize v + fsizeF fs + 1 ≤ fuel →
      (k.all (fun c => c ≠ qc) && wfJ v && wfF fs) = true → NumSafe rest →
      parseFields fuel
          ((qc :: k ++ qc :: ':' :: render v) ++ renderFieldsRest fs ++
            rb :: rest) =
        some (.cons k v fs, rest)) := by
  induction fuel with
  | zero =>
    refine ⟨?_, ?_, ?_⟩
    · intro j rest hf _ _
      exact absurd hf (by have := fsize_pos j; omega)
    · intro e es rest hf _ _
      exact absurd hf (by omega)
    · intro k v fs rest hf _ _
      exact absurd hf (by omega)
  | succ f ih =>
    obtain ⟨ihJ, ihE, ihF⟩ := ih
    refine ⟨?_, ?_, ?_⟩
    · intro j rest hf hw hr
      cases j with
      | null => rfl
      | bool b => cases b <;> rfl
      | str s =>
        have hk : ∀ c ∈ s, c ≠ qc := by
          simp only [wfJ, List.all_eq_true] at hw
          intro c hc
          simpa using hw c hc
        rw [show render (.str s) ++ rest = qc :: (s ++ qc :: rest) by simp [render]]
        rw [parseJ_succ_cons]
        rw [if_pos (by rfl)]
        rw [parseStringBody_spec s rest hk]
        rfl
      | num v =>
        obtain ⟨c, cs, hsh, hc⟩ := renderInt_head v
        rw [show render (.num v) ++ rest = c :: (cs ++ rest) by
          rw [show render (.num v) = renderInt v from rfl, hsh]; rfl]
        rw [parseJ_succ_cons]
        rw [if_neg (numStart_ne c hc qc (by decide) (by decide))]
        rw [if_neg (numStart_ne c hc lb (by decide) (by decide))]
        rw [if_neg (numStart_ne c hc '[' (by decide) (by decide))]
        rw [if_neg (numStart_ne c hc 't' (by decide) (by decide))]
        rw [if_neg (numStart_ne c hc 'f' (by decide) (by decide))]
        rw [if_neg (numStart_ne c hc 'n' (by decide) (by decide))]
        rw [if_pos (show (isDigitC c || c = '-') = true by
          rcases hc with h | h
          · simp [h]
          · simp [h])]
        rw [show c :: (cs ++ rest) = renderInt v ++ rest by rw [hsh]; rfl]
        exact parseNumTok_num v rest hr
      | fnum v =>
        obtain ⟨c, cs, hsh, hc⟩ := renderInt_head v
        rw [show render (.fnum v) ++ rest = c :: (cs ++ '.' :: '0' :: rest) by
          rw [show render (.fnum v) = renderInt v ++ ['.', '0'] from rfl, hsh]; simp]
        rw [parseJ_succ_cons]
        rw [if_neg (numStart_ne c hc qc (by decide) (by decide))]
        rw [if_neg (numStart_ne c hc lb (by decide) (by decide))]
        rw [if_neg (numStart_ne c hc '[' (by decide) (by decide))]
        rw [if_neg (numStart_ne c hc 't' (by decide) (by decide))]
        rw [if_neg (numStart_ne c hc 'f' (by decide) (by decide))]
        rw [if_neg (numStart_ne c hc 'n' (by decide) (by decide))]
        rw [if_pos (show (isDigitC c || c = '-') = true by
          rcases hc with h | h
          · simp [h]
          · simp [h])]
        rw [show c :: (cs ++ '.' :: '0' :: rest) = renderInt v ++ '.' :: '0' :: rest by
          rw [hsh]; simp]
        exact parseNumTok_fnum v rest (fun c h => (hr c h).1)
      | arr es =>
        cases es with
        | nil => rfl
        | cons e es =>
          have hf' : fsize e + fsizeL es + 1 ≤ f := by
            simp only [fsize, fsizeL] at hf
            omega
          have hw' : (wfJ e && wfL es) = true := by
            simpa only [wfJ, wfL] using hw
          rw [show render (.arr (.cons e es)) ++ rest =
            '[' :: (render e ++ renderElemsRest es ++ ']' :: rest) by simp [render]]
          rw [parseJ_succ_cons]
          rw [if_neg (show ¬(('[' : Char) = qc) by decide)]
          rw [if_neg (show ¬(('[' : Char) = lb) by decide)]
          rw [if_pos (show ('[' : Char) = '[' from rfl)]
          obtain ⟨c0, cs0, hsh0, hne1, _⟩ := render_head e
          rw [show render e ++ renderElemsRest es ++ ']' :: rest =
            c0 :: (cs0 ++ renderElemsRest es ++ ']' :: rest) by rw [hsh0]; simp]
          rw [if_neg (show ¬((c0 :: (cs0 ++ renderElemsRest es ++
            ']' :: rest)).head? = some ']') by simp [hne1])]
          rw [if_neg (show ¬((c0 :: (cs0 ++ renderElemsRest es ++
            ']' :: rest)).isEmpty = true) by simp)]
          rw [show c0 :: (cs0 ++ renderElemsRest es ++ ']' :: rest) =
            render e ++ renderElemsRest es ++ ']' :: rest by rw [hsh0]; simp]
          rw [ihE e es rest hf' hw' hr]
          rfl
      | obj fs =>
        cases fs with
        | nil => rfl
        | cons k v fs =>
          have hf' : fsize v + fsizeF fs + 1 ≤ f := by
            simp only [fsize, fsizeF] at hf
            omega
          have hw' : (k.all (fun c => c ≠ qc) && wfJ v && wfF fs) = true := by
            simpa only [wfJ, wfF] using hw
          rw [show render (.obj (.cons k v fs)) ++ rest =
            lb :: ((qc :: k ++ qc :: ':' :: render v) ++ renderFieldsRest fs ++
              rb :: rest) by simp [render]]
          rw [parseJ_succ_cons]
          rw [if_neg (show ¬(lb = qc) by decide)]
          rw [if_pos (show lb = lb from rfl)]
          rw [show (qc :: k ++ qc :: ':' :: render v) ++ renderFieldsRest fs ++
            rb :: rest = qc :: (k ++ qc :: ':' :: render v ++ renderFieldsRest fs ++
              rb :: rest) by simp]
          rw [if_neg (show ¬((qc :: (k ++ qc :: ':' :: render v ++
            renderFieldsRest fs ++ rb :: rest)).head? = some rb) by
            simp [show qc ≠ rb from by decide])]
          rw [if_neg (show ¬((qc :: (k ++ qc :: ':' :: render v ++
            renderFieldsRest fs ++ rb :: rest)).isEmpty = true) by simp)]
          rw [show qc :: (k ++ qc :: ':' :: render v ++ renderFieldsRest fs ++
            rb :: rest) = (qc :: k ++ qc :: ':' :: render v) ++
              renderFieldsRest fs ++ rb :: rest by simp]
          rw [ihF k v fs rest hf' hw' hr]
          rfl
    · intro e es rest hf hw hr
      have h1 : wfJ e = true ∧ wfL es = true := by simpa using hw
      rw [parseElems_succ]
      rw [show render e ++ renderElemsRest es ++ ']' :: rest =
        render e ++ (renderElemsRest es ++ ']' :: rest) by simp]
      rw [ihJ e (renderElemsRest es ++ ']' :: rest) (by omega) h1.1
        (numSafe_elemsRest es rest)]
      rw [Option.some_bind]
      cases es with
      | nil =>
        rw [show renderElemsRest JsonList.nil ++ ']' :: rest = ']' :: rest from rfl]
        rw [if_pos (by rfl)]
        rfl
      | cons e2 es2 =>
        have hf2 : fsize e2 + fsizeL es2 + 1 ≤ f := by
          simp only [fsizeL] at hf
          have := fsize_pos e
          omega
        have hw2 : (wfJ e2 && wfL es2) = true := by
          simpa only [wfL] using h1.2
        rw [show renderElemsRest (JsonList.cons e2 es2) ++ ']' :: rest =
          ',' :: (render e2 ++ renderElemsRest es2 ++ ']' :: rest) by
          simp [renderElemsRest]]
        rw [if_neg (show ¬((e, ',' :: (render e2 ++ renderElemsRest es2 ++
          ']' :: rest)).2.head? = some ']') by
          simp [show (',' : Char) ≠ ']' from by decide])]
        rw [if_pos (by rfl)]
        show (parseElems f (render e2 ++ renderElemsRest es2 ++ ']' :: rest)).map _ = _
        rw [ihE e2 es2 rest hf2 hw2 hr]
        rfl
    · intro k v fs rest hf hw hr
      obtain ⟨⟨hk, hv⟩, hfs⟩ :
          ((∀ c ∈ k, c ≠ qc) ∧ wfJ v = true) ∧ wfF fs = true := by
        simpa [List.all_eq_true] using hw
      rw [parseFields_succ]
      rw [show (qc :: k ++ qc :: ':' :: render v) ++ renderFieldsRest fs ++
        rb :: rest = qc :: (k ++ qc ::
          (':' :: (render v ++ (renderFieldsRest fs ++ rb :: rest)))) by simp]
      rw [if_pos (by rfl)]
      show (parseStringBody (k ++ qc ::
        (':' :: (render v ++ (renderFieldsRest fs ++ rb :: rest))))).bind _ = _
      rw [parseStringBody_spec k
        (':' :: (render v ++ (renderFieldsRest fs ++ rb :: rest))) hk]
      rw [Option.some_bind]
      rw [if_pos (by rfl)]
      show (parseJ f (render v ++ (renderFieldsRest fs ++ rb :: rest))).bind _ = _
      rw [ihJ v (renderFieldsRest fs ++ rb :: rest) (by omega) hv
        (numSafe_fieldsRest fs rest)]
      rw [Option.some_bind]
      cases fs with
      | nil =>
        rw [show renderFieldsRest JsonFields.nil ++ rb :: rest = rb :: rest from rfl]
        rw [if_pos (by rfl)]
        rfl
      | cons k2 v2 fs2 =>
        have hf2 : fsize v2 + fsizeF fs2 + 1 ≤ f := by
          simp only [fsizeF] at hf
          have := fsize_pos v
          omega
        have hw2 : (k2.all (fun c => c ≠ qc) && wfJ v2 && wfF fs2) = true := by
          simpa only [wfF] using hfs
        rw [show renderFieldsRest (JsonFields.cons k2 v2 fs2) ++ rb :: rest =
          ',' :: ((qc :: k2 ++ qc :: ':' :: render v2) ++ renderFieldsRest fs2 ++
            rb :: rest) by simp [renderFieldsRest]]
        rw [if_neg (show ¬((v, ',' :: ((qc :: k2 ++ qc :: ':' :: render v2) ++
          renderFieldsRest fs2 ++ rb :: rest)).2.head? = some rb) by
          simp [show (',' : Char) ≠ rb from by decide])]
        rw [if_pos (by rfl)]
        show (parseFields f ((qc :: k2 ++ qc :: ':' :: render v2) ++
          renderFieldsRest fs2 ++ rb :: rest)).map _ = _
        rw [ihF k2 v2 fs2 rest hf2 hw2 hr]
        rfl

/-- `parse_roundtrip`, value component. -/
theorem parse_render (j : Json) (fuel : Nat) (rest : List Char)
    (hf : fsize j ≤ fuel) (hw : wfJ j = true) (hr : NumSafe rest) :
    parseJ fuel (render j ++ rest) = some (j, rest) :=
  (parse_roundtrip fuel).1 j rest hf hw hr

mutual
/-- A value's fuel bound is at most its rendered length. -/
theorem fsize_le_render (j : Json) : fsize j ≤ (render j).length := by
  cases j with
  | null => decide
  | bool b => cases b <;> decide
  | str s =>
    show 1 ≤ (qc :: (s ++ [qc])).length
    simp only [List.length_cons, List.length_append]
    omega
  | num v =>
    obtain ⟨c, cs, hsh, _⟩ := renderInt_head v
    show 1 ≤ (renderInt v).length
    rw [hsh]
    simp only [List.length_cons]
    omega
  | fnum v =>
    show 1 ≤ (renderInt v ++ ['.', '0']).length
    simp only [List.length_append, List.length_cons, List.length_nil]
    omega
  | arr es =>
    cases es with
    | nil => decide
    | cons e es =>
      have h1 := fsize_le_render e
      have h2 := fsize_le_renderL es
      show fsizeL (.cons e es) + 1 ≤
        ('[' :: (render e ++ renderElemsRest es ++ [']'])).length
      simp only [fsizeL, List.length_cons, List.length_append, List.length_nil]
      omega
  | obj fs =>
    cases fs with
    | nil => decide
    | cons k v fs =>
      have h1 := fsize_le_render v
      have h2 := fsize_le_renderF fs
      show fsizeF (.cons k v fs) + 1 ≤
        (lb :: ((qc :: k ++ qc :: ':' :: render v) ++ renderFieldsRest fs ++
          [rb])).length
      simp only [fsizeF, List.length_cons, List.length_append, List.length_nil]
      omega

/-- Element-list fuel bound. -/
theorem fsize_le_renderL (es : JsonList) : fsizeL es ≤ (renderElemsRest es).length := by
  cases es with
  | nil => decide
  | cons e es =>
    have h1 := fsize_le_render e
    have h2 := fsize_le_renderL es
    show fsize e + fsizeL es + 1 ≤ (',' :: render e ++ renderElemsRest es).length
    simp only [List.length_cons, List.length_append]
    omega

/-- Field-list fuel bound. -/
theorem fsize_le_renderF (fs : JsonFields) : fsizeF fs ≤ (renderFieldsRest fs).length := by
  cases fs with
  | nil => decide
  | cons k v fs =>
    have h1 := fsize_le_render v
    have h2 := fsize_le_renderF fs
    show fsize v + fsizeF fs + 1 ≤
      (',' :: (qc :: k ++ qc :: ':' :: render v) ++ renderFieldsRest fs).length
    simp only [List.length_cons, List.length_append]
    omega
end

/-- Whole-input roundtrip at the fuel `from_bytes` supplies. -/
theorem parseJ_render_full (j : Json) (hw : wfJ j = true) :
    parseJ ((render j).length + 1) (render j) = some (j, []) := by
  have h := parse_render j ((render j).length + 1) []
    (by have := fsize_le_render j; omega) hw numSafe_nil
  simpa using h

/-- Decoding inverts encoding for lists of strings (stated on `.data`,
the simp normal form of `String.toList`). -/
theorem mapMOpt_decodeString (xs : List String) :
    JsonList.mapMOpt decodeString
      (JsonList.ofList (xs.map (fun s => .str s.data))) = some xs := by
  induction xs with
  | nil => rfl
  | cons x xs ih =>
    simp [JsonList.ofList, JsonList.mapMOpt, decodeString, ih]

/-- Decoding inverts encoding for lists of float-typed numbers. -/
theorem mapMOpt_decodeNumber (vs : List Val) :
    JsonList.mapMOpt decodeNumber (JsonList.ofList (vs.map Json.fnum)) = some vs := by
  induction vs with
  | nil => rfl
  | cons v vs ih => simp [JsonList.ofList, JsonList.mapMOpt, decodeNumber, ih]

/-- Decoding inverts encoding for attribute values. -/
theorem decodeAttributeValue_encode (a : AttributeValue) :
    decodeAttributeValue (jsonOfAttributeValue a) = some a := by
  cases a with
  | string s => simp [jsonOfAttributeValue, decodeAttributeValue, string_mk_toList]
  | integer n => rfl
  | float x => rfl
  | bool b => rfl
  | stringList xs =>
    simp [jsonOfAttributeValue, decodeAttributeValue, String.toList,
      mapMOpt_decodeString]

/-- Decoding inverts encoding for attribute maps (field form). -/
theorem decodeAttrFields_encode (a : Attrs) :
    decodeAttrFields (JsonFields.ofList
      (a.map (fun kv => (kv.1.toList, jsonOfAttributeValue kv.2)))) = some a := by
  induction a with
  | nil => rfl
  | cons kv rest ih =>
    simp only [String.toList] at ih
    simp [JsonFields.ofList, decodeAttrFields, decodeAttributeValue_encode,
      String.toList, ih]

/-- Decoding inverts encoding for attribute maps. -/
theorem decodeAttrs_encode (a : Attrs) :
    decodeAttrs (jsonOfAttrs a) = some a := by
  have h := decodeAttrFields_encode a
  simp only [String.toList] at h
  simp [jsonOfAttrs, decodeAttrs, String.toList, h]

/-- Decoding inverts encoding for vector entries. -/
theorem decodeVectorEntry_encode (v : VectorEntry) :
    decodeVectorEntry (jsonOfVectorEntry v) = some v := by
  rcases v with ⟨id, values, attrs⟩
  cases attrs with
  | none =>
    simp [jsonOfVectorEntry, decodeVectorEntry, JsonFields.ofList, objLookup,
      decodeString, string_mk_toList, mapMOpt_decodeNumber]
  | some a =>
    simp [jsonOfVectorEntry, decodeVectorEntry, JsonFields.ofList, objLookup,
      decodeString, string_mk_toList, mapMOpt_decodeNumber, decodeAttrs_encode]

/-- Decoding inverts encoding for lists of vector entries. -/
theorem mapMOpt_decodeVectorEntry (vs : List VectorEntry) :
    JsonList.mapMOpt decodeVectorEntry
      (JsonList.ofList (vs.map jsonOfVectorEntry)) = some vs := by
  induction vs with
  | nil => rfl
  | cons v vs ih =>
    simp [JsonList.ofList, JsonList.mapMOpt, decodeVectorEntry_encode, ih]

/-- Decoding inverts encoding for a `u64` checksum in range. -/
theorem decodeU64_encode (checksum : Nat) (hc3 : checksum < 2 ^ 64) :
    decodeU64 (.num (checksum : Int)) = some checksum := by
  simp only [decodeU64]
  rw [if_pos (show (0 : Int) ≤ (checksum : Int) ∧ (checksum : Int) < 2 ^ 64
    from ⟨Int.natCast_nonneg _, by omega⟩)]
  simp

/-- Decoding inverts encoding for whole fragments, given a valid ULID id
and an in-range checksum. -/
theorem fragmentFromJson_encode (F : Fragment)
    (hu : ulidValid F.id = true) (hcs : F.checksum < 2 ^ 64) :
    fragmentFromJson (fragmentToJson F) = some F := by
  rcases F with ⟨id, vectors, deletes, checksum⟩
  have hc3 : checksum < 2 ^ 64 := hcs
  have hun : ulidValid id = true := hu
  simp only [fragmentToJson, fragmentFromJson]
  set FS := JsonFields.ofList
    [(String.toList "id", Json.str id),
     (String.toList "vectors",
      Json.arr (JsonList.ofList (List.map jsonOfVectorEntry vectors))),
     (String.toList "deletes",
      Json.arr (JsonList.ofList (List.map (fun s => Json.str s.toList) deletes))),
     (String.toList "checksum", Json.num (checksum : Int))] with hFS
  rw [show objLookup FS (String.toList "id") = some (Json.str id) by rw [hFS]; rfl]
  rw [Option.some_bind]
  show ((if ulidValid id then some id else Option.none).bind _ : Option Fragment) = _
  rw [if_pos hun, Option.some_bind]
  rw [show objLookup FS (String.toList "vectors") =
    some (Json.arr (JsonList.ofList (List.map jsonOfVectorEntry vectors))) by
    rw [hFS]; rfl]
  rw [Option.some_bind]
  show ((JsonList.mapMOpt decodeVectorEntry
    (JsonList.ofList (List.map jsonOfVectorEntry vectors))).bind _ :
      Option Fragment) = _
  rw [mapMOpt_decodeVectorEntry vectors, Option.some_bind]
  rw [show objLookup FS (String.toList "deletes") =
    some (Json.arr (JsonList.ofList
      (List.map (fun s => Json.str s.toList) deletes))) by rw [hFS]; rfl]
  rw [Option.some_bind]
  show ((JsonList.mapMOpt decodeString
    (JsonList.ofList (List.map (fun s => Json.str s.data) deletes))).bind _ :
      Option Fragment) = _
  rw [mapMOpt_decodeString deletes, Option.some_bind]
  rw [show objLookup FS (String.toList "checksum") =
    some (Json.num (checksum : Int)) by rw [hFS]; rfl]
  rw [Option.some_bind]
  rw [decodeU64_encode checksum hc3, Option.some_bind]

/-- A fragment whose stored checksum is the computed one validates. -/
theorem validate_checksum_ok (h : List Char → Nat) (F : Fragment)
    (hcs : F.checksum = compute_checksum h F.vectors F.deletes) :
    validate_checksum h F = .ok () := by
  simp [validate_checksum, hcs]

/-- `from_bytes` inverts `to_bytes`: the checksum round-trip. -/
theorem from_bytes_to_bytes (h : List Char → Nat) (F : Fragment)
    (hu : ulidValid F.id = true) (hw : wfJ (fragmentToJson F) = true)
    (hcs : F.checksum = compute_checksum h F.vectors F.deletes) :
    from_bytes h (to_bytes F) = .ok F := by
  have hlt : F.checksum < 2 ^ 64 := by
    rw [hcs]
    unfold compute_checksum
    exact Nat.mod_lt _ (by norm_num)
  unfold from_bytes to_bytes
  rw [parseJ_render_full (fragmentToJson F) hw]
  rw [Option.some_bind]
  rw [if_pos (show (fragmentToJson F, ([] : List Char)).2 = [] from rfl)]
  show (match fragmentFromJson (fragmentToJson F) with
        | some F2 =>
          match validate_checksum h F2 with
          | .ok _ => Except.ok F2
          | .error e => Except.error e
        | none => Except.error ZeppelinError.json) = Except.ok F
  rw [fragmentFromJson_encode F hu hlt]
  show (match validate_checksum h F with
        | .ok _ => Except.ok F
        | .error e => Except.error e) = Except.ok F
  rw [validate_checksum_ok h F hcs]

/-- Setting an index past a prefix sets in the suffix. -/
theorem set_append_right (l₁ l₂ : List α) (n : Nat) (c : α) :
    (l₁ ++ l₂).set (l₁.length + n) c = l₁ ++ l₂.set n c := by
  induction l₁ with
  | nil => simp
  | cons a as ih =>
    show (a :: (as ++ l₂)).set (as.length + 1 + n) c = a :: (as ++ l₂.set n c)
    rw [show as.length + 1 + n = (as.length + n) + 1 by omega]
    show a :: ((as ++ l₂).set (as.length + n) c) = a :: (as ++ l₂.set n c)
    rw [ih]

/-- Setting an index inside a prefix sets in the prefix. -/
theorem set_append_left (l₁ l₂ : List α) (n : Nat) (c : α) (h : n < l₁.length) :
    (l₁ ++ l₂).set n c = l₁.set n c ++ l₂ := by
  induction l₁ generalizing n with
  | nil => simp at h
  | cons a as ih =>
    cases n with
    | zero => rfl
    | succ m =>
      show a :: ((as ++ l₂).set m c) = a :: (as.set m c ++ l₂)
      rw [ih m (by simpa using h)]

/-- Setting an index inside the middle block of a three-part
concatenation. -/
theorem set_middle (p m su : List α) (k : Nat) (c : α) (hk : k < m.length) :
    (p ++ m ++ su).set (p.length + k) c = p ++ m.set k c ++ su := by
  rw [show p ++ m ++ su = p ++ (m ++ su) by simp]
  rw [show p ++ m.set k c ++ su = p ++ (m.set k c ++ su) by simp]
  rw [set_append_right]
  rw [set_append_left m su k c hk]

/-- The serialized fragment decomposes as a 7-byte header, the id text,
and a suffix independent of the id. -/
theorem to_bytes_decomp (F : Fragment) :
    to_bytes F = [lb, qc, 'i', 'd', qc, ':', qc] ++ F.id ++
      (qc :: (renderFieldsRest (JsonFields.ofList
        [(String.toList "vectors",
          Json.arr (JsonList.ofList (List.map jsonOfVectorEntry F.vectors))),
         (String.toList "deletes",
          Json.arr (JsonList.ofList
            (List.map (fun s => Json.str s.toList) F.deletes))),
         (String.toList "checksum", Json.num (F.checksum : Int))]) ++ [rb])) := by
  show render (fragmentToJson F) = _
  simp [fragmentToJson, JsonFields.ofList, render, String.toList]

/-- Valid ULID text contains no quote character. -/
theorem ulid_all_ne_qc (s : List Char) (hu : ulidValid s = true) :
    s.all (fun c => c ≠ qc) = true := by
  have hq : ∀ x ∈ crockford, x ≠ qc := by decide
  simp only [ulidValid, Bool.and_eq_true] at hu
  have hcn := hu.1.2
  simp only [List.all_eq_true] at hcn ⊢
  intro c hc
  have hmem : c ∈ crockford := by simpa using hcn c hc
  simpa using hq c hmem

/-- Replacing the id by another escape-free string preserves
well-formedness of the serialized fragment. -/
theorem wfJ_fragmentToJson_set_id (F : Fragment) (s : List Char)
    (hs : s.all (fun c => c ≠ qc) = true)
    (hw : wfJ (fragmentToJson F) = true) :
    wfJ (fragmentToJson { F with id := s }) = true := by
  have hs' : ∀ c ∈ s, c ≠ qc := by simpa using hs
  rcases F with ⟨id, vectors, deletes, checksum⟩
  simp only [fragmentToJson, JsonFields.ofList, wfJ, wfF] at hw ⊢
  simp only [Bool.and_eq_true, List.all_eq_true, decide_eq_true_eq] at hw ⊢
  exact ⟨⟨hw.1.1, hs'⟩, hw.2⟩

/-- Overwriting byte `7 + k` of a serialized fragment overwrites
character `k` of the id text. -/
theorem to_bytes_set_id (F : Fragment) (k : Nat) (c : Char)
    (hk : k < F.id.length) :
    mutateByte (7 + k) c (to_bytes F) = to_bytes { F with id := F.id.set k c } := by
  rcases F with ⟨id, vectors, deletes, checksum⟩
  rw [to_bytes_decomp, to_bytes_decomp]
  unfold mutateByte
  dsimp only
  rw [show (7 : Nat) + k =
    ([lb, qc, 'i', 'd', qc, ':', qc] : List Char).length + k from rfl]
  exact set_middle _ _ _ k c hk

/-- C3: for every well-formed WAL fragment, `from_bytes (to_bytes F)`
succeeds and returns `F` itself (so the checksum round-trips); but the
checksum only covers `(vectors, deletes)`: overwriting byte `7 + k` of
the serialization (character `k` of the id text) with another character
that keeps the id valid ULID text is a genuine single-byte mutation that
`from_bytes` does NOT detect - it returns `Ok` with the mutated id. -/
theorem C3_roundtrip_ok_but_id_mutation_undetected (h : List Char → Nat)
    (F : Fragment) (k : Nat) (c : Char)
    (hu : ulidValid F.id = true)
    (hw : wfJ (fragmentToJson F) = true)
    (hcs : F.checksum = compute_checksum h F.vectors F.deletes)
    (hk : k < F.id.length)
    (hu2 : ulidValid (F.id.set k c) = true)
    (hne : F.id.set k c ≠ F.id) :
    from_bytes h (to_bytes F) = .ok F ∧
    mutateByte (7 + k) c (to_bytes F) ≠ to_bytes F ∧
    from_bytes h (mutateByte (7 + k) c (to_bytes F)) =
      .ok { F with id := F.id.set k c } := by
  have hw2 : wfJ (fragmentToJson { F with id := F.id.set k c }) = true :=
    wfJ_fragmentToJson_set_id F _ (ulid_all_ne_qc _ hu2) hw
  have hmb := to_bytes_set_id F k c hk
  refine ⟨from_bytes_to_bytes h F hu hw hcs, ?_, ?_⟩
  · rw [hmb]
    intro heq
    rw [to_bytes_decomp, to_bytes_decomp] at heq
    dsimp only at heq
    exact hne (List.append_cancel_left (List.append_cancel_right heq))
  · rw [hmb]
    exact from_bytes_to_bytes h { F with id := F.id.set k c } hu2 hw2 hcs

/-- C3 witness: the concrete fragment, mutated at id character 25 (byte
32 of the serialization). -/
theorem C3_roundtrip_ok_but_id_mutation_undetected_witness :
    from_bytes modelHash (to_bytes exampleFragment) = .ok exampleFragment ∧
    mutateByte (7 + 25) 'W' (to_bytes exampleFragment) ≠
      to_bytes exampleFragment ∧
    from_bytes modelHash (mutateByte (7 + 25) 'W' (to_bytes exampleFragment)) =
      .ok { exampleFragment with id := exampleFragment.id.set 25 'W' } :=
  C3_roundtrip_ok_but_id_mutation_undetected modelHash exampleFragment 25 'W'
    (by decide) (by decide) rfl (by decide) (by decide) (by decide)

/-- C3 counterexample to "any single-byte mutation is detected":
overwriting byte 32 (the last id character) of a serialized fragment is
a real mutation of the bytes, yet `from_bytes` returns `Ok` (with the
mutated id) instead of a parse or checksum error. -/
theorem C3_counterexample_id_mutation_accepted :
    mutateByte 32 'W' (to_bytes exampleFragment) ≠ to_bytes exampleFragment ∧
    from_bytes modelHash (mutateByte 32 'W' (to_bytes exampleFragment)) =
      .ok { exampleFragment with id := exampleFragment.id.set 25 'W' } := by
  decide

end Codec
end Zeppelin
